import Mathlib

/-!
Shallow embedding of the revscrap review-scraper pipeline (src/scraper.py and
the dispatch logic of src/app.py) together with proofs of the specification
claims about it.

Python strings are modelled as `List Char`, Python dicts as association lists
`List (String × Value)` over an inductive `Value` type covering the value
shapes that occur in the pipeline (strings, integers, datetimes, `None`, and
nested dicts).  Fallible Python code (subscript errors, `KeyError`,
`TypeError`, `ValueError` from `strptime`, `AttributeError` from `strftime`)
is modelled with `Option`.
-/

set_option maxHeartbeats 1000000
set_option maxRecDepth 8192
set_option linter.unusedVariables false

namespace Revscrap

/-- Coerce a Lean string literal to the `List Char` model of Python strings. -/
def str (s : String) : List Char := s.data

/-- Model of Python `s.split(sep)` for a one-character separator: adjacent
separators and separators at the ends produce empty segments, and the result
is never the empty list (`"".split("/") == [""]`). -/
def pySplit (sep : Char) : List Char → List (List Char)
  | [] => [[]]
  | c :: cs =>
    if c = sep then [] :: pySplit sep cs
    else
      match pySplit sep cs with
      | [] => [[c]]
      | t :: ts => (c :: t) :: ts

/-- Model of the call `.replace("id", "")` in `get_app_id_name_from_appstore_url`:
Python `str.replace` removes every non-overlapping occurrence of the pattern,
scanning left to right.  Specialised to the pattern `"id"` so that it is
structurally recursive. -/
def pyReplace_id : List Char → List Char
  | 'i' :: 'd' :: rest => pyReplace_id rest
  | c :: rest => c :: pyReplace_id rest
  | [] => []

/-- Model of the call `.replace("\n", "")` in `_format_generic`: removes every
occurrence of the newline character, scanning left to right. -/
def pyReplace_nl : List Char → List Char
  | '\n' :: rest => pyReplace_nl rest
  | c :: rest => c :: pyReplace_nl rest
  | [] => []

/-- Reference model of Python `s.replace(pat, rep)` for a non-empty pattern:
replace non-overlapping occurrences of `pat` by `rep`, scanning left to right.
(The empty-pattern case of Python `str.replace`, which interleaves `rep`
between all characters, is not used by the source and is modelled as the
identity.) -/
def pyStrReplace (pat rep s : List Char) : List Char :=
  match pat, s with
  | _, [] => []
  | [], s => s
  | p :: ps, c :: cs =>
    if (p :: ps).isPrefixOf (c :: cs) then
      rep ++ pyStrReplace (p :: ps) rep ((c :: cs).drop (p :: ps).length)
    else
      c :: pyStrReplace (p :: ps) rep cs
termination_by s.length
decreasing_by
  · simp only [List.length_drop, List.length_cons]
    omega
  · simp

/-- Model of the Python substring test `pat in s`: `pat` occurs as a
contiguous substring of `s` (the empty pattern occurs in every string). -/
def pyIn : List Char → List Char → Bool
  | pat, [] => pat.isEmpty
  | pat, c :: cs => pat.isPrefixOf (c :: cs) || pyIn pat cs

/-- Model of `get_app_id_name_from_appstore_url` (src/scraper.py:12-21):
`return url.split("/")[-1].replace("id", ""), url.split("/")[-2]`.
The negative indices are read off the reversed segment list; `[-2]` raises
`IndexError` when the split produces fewer than two segments (that is, when
the URL contains no `/`), modelled by `none`. -/
def get_app_id_name_from_appstore_url (url : List Char) : Option (List Char × List Char) :=
  match (pySplit '/' url).reverse with
  | last :: prev :: _ => some (pyReplace_id last, prev)
  | _ => none

/-- Model of `get_app_id_from_playstore_url` (src/scraper.py:24-34):
`url.split("/")[-1].split("?")[-1].split("&")[0].replace("id=", "")`.
All the negative/zero indices here are total (`split` never returns an empty
list).  The `.replace("id=", "")` call is modelled with the general
`pyStrReplace`. -/
def get_app_id_from_playstore_url (url : List Char) : List Char :=
  let seg := ((pySplit '/' url).reverse.headD [])
  let seg2 := ((pySplit '?' seg).reverse.headD [])
  let seg3 := ((pySplit '&' seg2).headD [])
  pyStrReplace (str "id=") [] seg3

/-- Python values occurring in the review pipeline: strings, integers,
`datetime` objects, `None`, and nested dicts (the `developerResponse`
sub-record). -/
inductive Value where
  | vStr : List Char → Value
  | vInt : Int → Value
  | vDT : Nat → Nat → Nat → Nat → Nat → Nat → Value
  | vNone : Value
  | vDict : List (String × Value) → Value

/-- A raw review record: a Python dict from field names to values. -/
abbrev Rec : Type := List (String × Value)

/-- Python dict lookup `rev[k]`; `none` models `KeyError`. -/
def pyGet : Rec → String → Option Value
  | [], _ => none
  | (k', v) :: rest, k => if k = k' then some v else pyGet rest k

/-- Python dict assignment `rev[k] = v`: an existing key keeps its position,
a new key is appended at the end (insertion order). -/
def pySet : Rec → String → Value → Rec
  | [], k, v => [(k, v)]
  | (k', v') :: rest, k, v =>
    if k = k' then (k', v) :: rest else (k', v') :: pySet rest k v

/-- Python membership test `k in rev` on a dict. -/
def pyHasKey (rev : Rec) (k : String) : Bool := (pyGet rev k).isSome

/-- Python binary `+` restricted to the operand shapes the pipeline can
produce: string concatenation and integer addition; anything else is a
`TypeError`, modelled by `none`. -/
def pyAdd : Value → Value → Option Value
  | .vStr a, .vStr b => some (.vStr (a ++ b))
  | .vInt a, .vInt b => some (.vInt (a + b))
  | _, _ => none

/-- Python subscript `v[k]` on a value: only dicts support string keys;
anything else is a `TypeError`. -/
def pyGetItem : Value → String → Option Value
  | .vDict l, k => pyGet l k
  | _, _ => none

/-- Gregorian leap-year rule, as used by Python `datetime` validation. -/
def isLeap (y : Nat) : Bool := (y % 4 == 0 && y % 100 != 0) || y % 400 == 0

/-- Number of days in a month, as used by Python `datetime` validation. -/
def daysInMonth (y m : Nat) : Nat :=
  if m = 2 then (if isLeap y then 29 else 28)
  else if m = 4 ∨ m = 6 ∨ m = 9 ∨ m = 11 then 30
  else 31

/-- Numeric value of a decimal digit character (code points 48-57), `none`
otherwise. -/
def digitVal (c : Char) : Option Nat :=
  if 48 ≤ c.toNat ∧ c.toNat ≤ 57 then some (c.toNat - 48) else none

/-- Parse exactly two decimal digits from the front of a character list. -/
def parse2 : List Char → Option (Nat × List Char)
  | a :: b :: rest => do
    let da ← digitVal a
    let db ← digitVal b
    some (da * 10 + db, rest)
  | _ => none

/-- Parse exactly four decimal digits from the front of a character list. -/
def parse4 : List Char → Option (Nat × List Char)
  | a :: b :: c :: d :: rest => do
    let da ← digitVal a
    let db ← digitVal b
    let dc ← digitVal c
    let dd ← digitVal d
    some (((da * 10 + db) * 10 + dc) * 10 + dd, rest)
  | _ => none

/-- Expect one specific character at the front of a character list. -/
def expectChar (c : Char) : List Char → Option (List Char)
  | c' :: rest => if c' = c then some rest else none
  | [] => none

/-- Model of `datetime.strptime(s, "%Y-%m-%dT%H:%M:%SZ")` (src/scraper.py:142)
on the canonical zero-padded timestamps produced by the App Store service:
four year digits, two digits for each other field, with the literal
separators, and the range checks Python's `strptime`/`datetime` constructor
performs (year 1-9999, month 1-12, day within the month, hour 0-23,
minute/second 0-59).  A failed parse is Python's `ValueError`, modelled by
`none`.  (Python additionally accepts non-zero-padded month/day/hour fields,
which the service never emits; those inputs are modelled as failing.) -/
def strptime_iso (s : List Char) : Option Value := do
  let (y, s) ← parse4 s
  let s ← expectChar '-' s
  let (mo, s) ← parse2 s
  let s ← expectChar '-' s
  let (d, s) ← parse2 s
  let s ← expectChar 'T' s
  let (h, s) ← parse2 s
  let s ← expectChar ':' s
  let (mi, s) ← parse2 s
  let s ← expectChar ':' s
  let (sec, s) ← parse2 s
  let s ← expectChar 'Z' s
  if s = [] ∧ 1 ≤ y ∧ 1 ≤ mo ∧ mo ≤ 12 ∧ 1 ≤ d ∧ d ≤ daysInMonth y mo ∧
      h ≤ 23 ∧ mi ≤ 59 ∧ sec ≤ 59 then
    some (.vDT y mo d h mi sec)
  else
    none

/-- Decimal digit character for a value below ten. -/
def digitChar (n : Nat) : Char := Char.ofNat ('0'.toNat + n)

/-- Fuelled decimal rendering: `fuel` bounds the number of digits produced
(kept structural so that concrete values compute by `rfl`). -/
def decDigitsAux : Nat → Nat → List Char
  | 0, _ => []
  | fuel + 1, n =>
    if n < 10 then [digitChar n]
    else decDigitsAux fuel (n / 10) ++ [digitChar (n % 10)]

/-- Decimal rendering of a natural number, most significant digit first
(`n + 1` fuel always suffices, since a number has at most `n + 1` digits). -/
def decDigits (n : Nat) : List Char := decDigitsAux (n + 1) n

/-- Zero-pad a decimal rendering on the left to two characters, as `%d` and
`%m` do in `strftime`. -/
def pad2 (n : Nat) : List Char :=
  if n < 10 then '0' :: decDigits n else decDigits n

/-- Zero-pad a decimal rendering on the left to four characters, as `%Y` does
in `strftime`. -/
def pad4 (n : Nat) : List Char :=
  List.replicate (4 - (decDigits n).length) '0' ++ decDigits n

/-- Model of `value.strftime("%d/%m/%Y")` on a `datetime` value
(src/scraper.py:196-198). -/
def strftime_dmY (mo d y : Nat) : List Char :=
  pad2 d ++ '/' :: (pad2 mo ++ '/' :: pad4 y)

/-- The loop body of `retrieve_playstore_reviews` (src/scraper.py:98-112).
The external `reviews` service is modelled by the oracle `pages`, indexed by
the number of calls made so far — faithful to the source because the opaque
continuation token returned by call `k` is always passed to call `k + 1`.
`k` is the call counter and `acc` the accumulated result list. -/
def retrievePlaystoreGo (pages : Nat → List Rec) (how_many k : Nat) (acc : List Rec) :
    List Rec :=
  if acc.length < how_many then
    match pages k with
    | [] => acc
    | p :: ps => retrievePlaystoreGo pages how_many (k + 1) (acc ++ p :: ps)
  else acc
termination_by how_many - acc.length
decreasing_by
  simp only [List.length_append, List.length_cons]
  omega

/-- Model of `retrieve_playstore_reviews` (src/scraper.py:67-112): paginate
through the review service, extending the accumulator with whole pages, until
the accumulated count reaches `how_many` or a page comes back empty. -/
def retrieve_playstore_reviews (pages : Nat → List Rec) (how_many : Nat) : List Rec :=
  retrievePlaystoreGo pages how_many 0 []

/-- Strip newlines from string values, leave every other value unchanged:
the per-cell transform of `_format_generic` (src/scraper.py:193-194). -/
def projectValue : Value → Value
  | .vStr s => .vStr (pyReplace_nl s)
  | v => v

/-- Model of the per-cell transform of the datetime comprehension in
`_format_generic` (src/scraper.py:196-199):
`"" if value is None or isinstance(value, str) else value.strftime("%d/%m/%Y")`.
Calling `strftime` on a non-datetime, non-string, non-`None` value is an
`AttributeError`, modelled by `none`. -/
def formatDatetimeCell : Value → Option Value
  | .vNone => some (.vStr [])
  | .vStr _ => some (.vStr [])
  | .vDT y mo d _ _ _ => some (.vStr (strftime_dmY mo d y))
  | .vInt _ => none
  | .vDict _ => none

/-- The dict comprehension `{key: [] for key in dataset_cols}`
(src/scraper.py:189): one empty column per distinct key, first occurrence
order. -/
def initDataset : List String → List (String × List Value)
  | [] => []
  | k :: ks =>
    if k ∈ ks then initDataset ks else (k, []) :: initDataset ks

/-- Python `dataset[k].append(v)` on the column dict: appends to the entry
with key `k`; a missing key is a `KeyError`. -/
def appendCell : List (String × List Value) → String → Value → Option (List (String × List Value))
  | [], _, _ => none
  | (k', col) :: rest, k, v =>
    if k = k' then some ((k', col ++ [v]) :: rest)
    else (appendCell rest k v).map (fun ds => (k', col) :: ds)

/-- The inner loop of `_format_generic` (src/scraper.py:191-194) for one
record: for each `(rev_key, dataset_key)` pair of `zip(revs_cols,
dataset_cols)`, look up `rev[rev_key]` (a missing field is a `KeyError`) and
append the newline-stripped value to the column `dataset_key`. -/
def projectRow (rev : Rec) : List (String × String) → List (String × List Value) →
    Option (List (String × List Value))
  | [], ds => some ds
  | (rk, dk) :: rest, ds => do
    let v ← pyGet rev rk
    let ds' ← appendCell ds dk (projectValue v)
    projectRow rev rest ds'

/-- The statement `dataset[key] = [... for value in dataset[key]]` applied to
a datetime column (src/scraper.py:196-199): reading a missing key is a
`KeyError`, and the comprehension itself can raise (`AttributeError`). -/
def updateDatetimeEntry : List (String × List Value) → String →
    Option (List (String × List Value))
  | [], _ => none
  | (k, col) :: rest, key =>
    if key = k then (col.mapM formatDatetimeCell).map (fun col' => (k, col') :: rest)
    else (updateDatetimeEntry rest key).map (fun ds => (k, col) :: ds)

/-- Model of `np.array(list(dataset.values())).T` for the rectangular column
data the pipeline produces: row `j` collects the `j`-th element of every
column.  The number of rows is the length of the first column (all columns
have equal length in every reachable state; `numpy` rejects ragged input).
The `getD` default is never read in range. -/
def transposeCols (cols : List (List Value)) : List (List Value) :=
  (List.range (cols.headD []).length).map
    (fun j => cols.map (fun col => col.getD j Value.vNone))

/-- Model of `_format_generic` (src/scraper.py:188-200): build the column
dict, convert the `"Datetime"` and `"Reply Datetime"` columns to strings, and
emit the header row followed by the transposed data rows. -/
def format_generic (revs : List Rec) (dataset_cols revs_cols : List String) :
    Option (List (List Value)) := do
  let ds1 ← revs.foldlM
    (fun ds rev => projectRow rev (revs_cols.zip dataset_cols) ds)
    (initDataset dataset_cols)
  let ds2 ← updateDatetimeEntry ds1 "Datetime"
  let ds3 ← updateDatetimeEntry ds2 "Reply Datetime"
  some ((ds3.map (fun p => Value.vStr (str p.1))) :: transposeCols (ds3.map (fun p => p.2)))

/-- The per-record preprocessing loop body of `formate_appstore_reviews`
(src/scraper.py:136-144): concatenate title and review, then synthesize the
`replyContent`/`repliedAt` fields from the optional `developerResponse`
sub-record. -/
def prepAppstoreReview (rev : Rec) : Option Rec := do
  let t ← pyGet rev "title"
  let r ← pyGet rev "review"
  let tr ← pyAdd t r
  let rev1 := pySet rev "review" tr
  if pyHasKey rev1 "developerResponse" then do
    let dr ← pyGet rev1 "developerResponse"
    let body ← pyGetItem dr "body"
    let modifiedV ← pyGetItem dr "modified"
    match modifiedV with
    | .vStr ms => do
      let dt ← strptime_iso ms
      some (pySet (pySet rev1 "replyContent" body) "repliedAt" dt)
    | _ => none
  else
    some (pySet (pySet rev1 "replyContent" (.vStr [])) "repliedAt" (.vStr []))

/-- The source field list of `formate_appstore_reviews` (src/scraper.py:133). -/
def asRevsCols : List String :=
  ["date", "userName", "review", "rating", "replyContent", "repliedAt"]

/-- The output column list of `formate_appstore_reviews` (src/scraper.py:134). -/
def asDatasetCols : List String :=
  ["Datetime", "Username", "Review", "Rating", "Reply", "Reply Datetime"]

/-- Model of `formate_appstore_reviews` (src/scraper.py:115-145). -/
def formate_appstore_reviews (revs : List Rec) : Option (List (List Value)) := do
  let revs2 ← revs.mapM prepAppstoreReview
  format_generic revs2 asDatasetCols asRevsCols

/-- The source field list of `format_playstore_reviews` (src/scraper.py:170). -/
def psRevsCols : List String :=
  ["at", "userName", "content", "score", "replyContent", "repliedAt", "thumbsUpCount"]

/-- The output column list of `format_playstore_reviews` (src/scraper.py:171). -/
def psDatasetCols : List String :=
  ["Datetime", "Username", "Review", "Rating", "Reply", "Reply Datetime", "Thumbs Up"]

/-- Model of `format_playstore_reviews` (src/scraper.py:148-172). -/
def format_playstore_reviews (revs : List Rec) : Option (List (List Value)) :=
  format_generic revs psDatasetCols psRevsCols

/-- The two scraping paths of the request handler. -/
inductive ScrapeAction where
  | appstore
  | playstore
deriving DecidableEq

/-- The URL dispatch of `start_review_scraping` (src/app.py:46-64): the
App Store marker is checked first, then the Play Store marker, and any other
URL raises `ValueError` with the fixed message. -/
def start_review_scraping_dispatch (url : List Char) : Except (List Char) ScrapeAction :=
  if pyIn (str "apps.apple.com") url then .ok .appstore
  else if pyIn (str "play.google.com") url then .ok .playstore
  else .error (str "Invalid url. Make sure to use a Playstore or Appstore url.")

/-! ### Basic lemmas about the string and dict models -/

/-- The boolean substring test agrees with the `IsInfix` relation. -/
theorem pyIn_iff_contains (pat s : List Char) : pyIn pat s = true ↔ pat <:+: s := by
  induction s with
  | nil =>
    simp [pyIn, List.isEmpty_iff, List.infix_nil]
  | cons c cs ih =>
    simp [pyIn, List.infix_cons_iff, ih, List.isPrefixOf_iff_prefix, or_comm]

/-- A successful `mapM` over `Option` preserves the length. -/
theorem mapM_option_length {α β : Type} (f : α → Option β) :
    ∀ {l : List α} {l' : List β}, l.mapM f = some l' → l'.length = l.length := by
  intro l
  induction l with
  | nil =>
    intro l' h
    simp only [List.mapM_nil, Option.pure_def, Option.some.injEq] at h
    subst h; simp
  | cons a as ih =>
    intro l' h
    simp only [List.mapM_cons, Option.bind_eq_bind, Option.bind_eq_some,
      Option.pure_def, Option.some.injEq] at h
    obtain ⟨b, hb, bs, hbs, rfl⟩ := h
    simp [ih hbs]

/-- Every element of a successful `mapM` over `Option` is the image of an
element of the input list. -/
theorem mapM_option_mem {α β : Type} (f : α → Option β) :
    ∀ {l : List α} {l' : List β}, l.mapM f = some l' →
      ∀ b ∈ l', ∃ a ∈ l, f a = some b := by
  intro l
  induction l with
  | nil =>
    intro l' h
    simp only [List.mapM_nil, Option.pure_def, Option.some.injEq] at h
    subst h; simp
  | cons a as ih =>
    intro l' h
    simp only [List.mapM_cons, Option.bind_eq_bind, Option.bind_eq_some,
      Option.pure_def, Option.some.injEq] at h
    obtain ⟨b, hb, bs, hbs, rfl⟩ := h
    intro x hx
    rcases List.mem_cons.mp hx with rfl | hx
    · exact ⟨a, List.mem_cons_self a as, hb⟩
    · obtain ⟨a', ha', hfa'⟩ := ih hbs x hx
      exact ⟨a', List.mem_cons_of_mem _ ha', hfa'⟩

/-- Position-wise description of a successful `mapM` over `Option`. -/
theorem mapM_option_getElem? {α β : Type} (f : α → Option β) :
    ∀ {l : List α} {l' : List β}, l.mapM f = some l' →
      ∀ j : Nat, l'[j]? = l[j]?.bind f := by
  intro l
  induction l with
  | nil =>
    intro l' h j
    simp only [List.mapM_nil, Option.pure_def, Option.some.injEq] at h
    subst h; simp
  | cons a as ih =>
    intro l' h j
    simp only [List.mapM_cons, Option.bind_eq_bind, Option.bind_eq_some,
      Option.pure_def, Option.some.injEq] at h
    obtain ⟨b, hb, bs, hbs, rfl⟩ := h
    cases j with
    | zero => simpa using hb.symm
    | succ j => simpa using ih hbs j

/-- Newline removal is deletion: the characters other than `'\n'`, in their
original relative order. -/
theorem pyReplace_nl_eq_filter (s : List Char) :
    pyReplace_nl s = s.filter (fun c => c != '\n') := by
  induction s with
  | nil => rfl
  | cons c cs ih =>
    by_cases hc : c = '\n'
    · subst hc; simpa [pyReplace_nl] using ih
    · rw [pyReplace_nl.eq_def]
      cases c with
      | mk v hv =>
        simp only [List.filter_cons]
        split
        · simp_all
        · simp_all [List.filter]

/-! ### Claim C1: three-way URL dispatch of the request handler -/

/-- C1: for every input URL string, the request handler performs a three-way
dispatch: a URL containing `"apps.apple.com"` takes the App Store path; else
one containing `"play.google.com"` takes the Play Store path; else it raises
a validation error whose message is exactly
`"Invalid url. Make sure to use a Playstore or Appstore url."`, and it raises
in no other case of this dispatch. -/
theorem c1_request_dispatch (url : List Char) :
    (str "apps.apple.com" <:+: url →
      start_review_scraping_dispatch url = .ok .appstore)
  ∧ (¬ str "apps.apple.com" <:+: url → str "play.google.com" <:+: url →
      start_review_scraping_dispatch url = .ok .playstore)
  ∧ (¬ str "apps.apple.com" <:+: url → ¬ str "play.google.com" <:+: url →
      start_review_scraping_dispatch url =
        .error (str "Invalid url. Make sure to use a Playstore or Appstore url."))
  ∧ (∀ e, start_review_scraping_dispatch url = .error e →
      e = str "Invalid url. Make sure to use a Playstore or Appstore url."
      ∧ ¬ str "apps.apple.com" <:+: url ∧ ¬ str "play.google.com" <:+: url) := by
  unfold start_review_scraping_dispatch
  rcases h1 : pyIn (str "apps.apple.com") url with _ | _
  · rcases h2 : pyIn (str "play.google.com") url with _ | _
    · simp_all [← pyIn_iff_contains]
    · simp_all [← pyIn_iff_contains]
  · simp_all [← pyIn_iff_contains]

/-- Witness for C1 at three concrete URLs, one per dispatch branch. -/
theorem c1_request_dispatch_witness :
    start_review_scraping_dispatch
      (str "https://apps.apple.com/it/app/enel-x-way/id1377291789") = .ok .appstore
  ∧ start_review_scraping_dispatch
      (str "https://play.google.com/store/apps/details?id=com.enel.mobile.recharge2") =
        .ok .playstore
  ∧ start_review_scraping_dispatch (str "https://example.com/foo") =
      .error (str "Invalid url. Make sure to use a Playstore or Appstore url.") := by
  refine ⟨(c1_request_dispatch _).1 ?_,
          (c1_request_dispatch _).2.1 ?_ ?_,
          (c1_request_dispatch _).2.2.1 ?_ ?_⟩
  · exact (pyIn_iff_contains _ _).mp rfl
  · rw [← pyIn_iff_contains]; decide
  · exact (pyIn_iff_contains _ _).mp rfl
  · rw [← pyIn_iff_contains]; decide
  · rw [← pyIn_iff_contains]; decide

/-! ### Claim C2: Play Store pagination -/

/-- Characterization of the pagination loop: starting from call counter `k`
and accumulator `acc`, the loop returns `acc` extended by some number `d` of
whole consecutive pages; it stops exactly at the first `d` where the
accumulated count reaches the limit or the next page is empty. -/
theorem retrieveGo_char (pages : Nat → List Rec) (n k : Nat) (acc : List Rec) :
    ∃ d,
      retrievePlaystoreGo pages n k acc = acc ++ ((List.range' k d).map pages).flatten
      ∧ ((acc ++ ((List.range' k d).map pages).flatten).length ≥ n ∨ pages (k + d) = [])
      ∧ ∀ j < d, (acc ++ ((List.range' k j).map pages).flatten).length < n
                 ∧ pages (k + j) ≠ [] := by
  by_cases hlt : acc.length < n
  · cases hpk : pages k with
    | nil =>
      have hbase : retrievePlaystoreGo pages n k acc = acc := by
        rw [retrievePlaystoreGo]
        simp [hlt, hpk]
      refine ⟨0, by simpa using hbase, ?_, by omega⟩
      right
      simpa using hpk
    | cons p ps =>
      have hstep : retrievePlaystoreGo pages n k acc
          = retrievePlaystoreGo pages n (k + 1) (acc ++ p :: ps) := by
        rw [retrievePlaystoreGo]
        simp [hlt, hpk]
      obtain ⟨d', h1, h2, h3⟩ := retrieveGo_char pages n (k + 1) (acc ++ p :: ps)
      refine ⟨d' + 1, ?_, ?_, ?_⟩
      · rw [hstep, h1, List.range'_succ]
        simp [hpk, List.append_assoc]
      · rcases h2 with h2 | h2
        · left
          rw [List.range'_succ]
          simpa [hpk, List.append_assoc] using h2
        · right
          have hk : k + (d' + 1) = (k + 1) + d' := by omega
          rw [hk]; exact h2
      · intro j hj
        cases j with
        | zero =>
          refine ⟨by simpa using hlt, ?_⟩
          simp [hpk]
        | succ j' =>
          obtain ⟨hlen, hne⟩ := h3 j' (by omega)
          refine ⟨?_, ?_⟩
          · rw [List.range'_succ]
            simpa [hpk, List.append_assoc] using hlen
          · have hk : k + (j' + 1) = (k + 1) + j' := by omega
            rw [hk]; exact hne
  · have hbase : retrievePlaystoreGo pages n k acc = acc := by
      rw [retrievePlaystoreGo]
      simp [hlt]
    exact ⟨0, by simpa using hbase, Or.inl (by simpa using Nat.le_of_not_lt hlt), by omega⟩
termination_by n - acc.length
decreasing_by
  simp only [List.length_append, List.length_cons]
  omega

/-- Mock Play Store service returning pages of sizes 150, 150, 40, 0, 0, ... -/
def mockPagesA : Nat → List Rec := fun k =>
  if k < 2 then List.replicate 150 [] else if k = 2 then List.replicate 40 [] else []

/-- Mock Play Store service returning pages of size 150 indefinitely. -/
def mockPagesB : Nat → List Rec := fun _ => List.replicate 150 []

/-- C2: `retrieve_playstore_reviews` accumulates whole pages in order and stops
exactly when the accumulated count first reaches or exceeds the limit or when a
page comes back empty, whichever occurs first; the result is the concatenation
of the first `d` whole pages (never truncated to the limit).  With pages of
sizes 150, 150, 40, 0, ... and limit 1000 it returns exactly 340 records, and
with unbounded pages of size 150 and limit 200 it returns exactly 300. -/
theorem c2_playstore_pagination :
    (∀ (pages : Nat → List Rec) (how_many : Nat), ∃ d,
      retrieve_playstore_reviews pages how_many = ((List.range d).map pages).flatten
      ∧ ((((List.range d).map pages).flatten).length ≥ how_many ∨ pages d = [])
      ∧ ∀ j < d, (((List.range j).map pages).flatten).length < how_many ∧ pages j ≠ [])
  ∧ (retrieve_playstore_reviews mockPagesA 1000).length = 340
  ∧ (retrieve_playstore_reviews mockPagesB 200).length = 300 := by
  have hgen : ∀ (pages : Nat → List Rec) (how_many : Nat), ∃ d,
      retrieve_playstore_reviews pages how_many = ((List.range d).map pages).flatten
      ∧ ((((List.range d).map pages).flatten).length ≥ how_many ∨ pages d = [])
      ∧ ∀ j < d, (((List.range j).map pages).flatten).length < how_many ∧ pages j ≠ [] := by
    intro pages how_many
    obtain ⟨d, h1, h2, h3⟩ := retrieveGo_char pages how_many 0 []
    refine ⟨d, ?_, ?_, ?_⟩
    · simpa [retrieve_playstore_reviews, List.range_eq_range'] using h1
    · simpa [List.range_eq_range'] using h2
    · intro j hj
      have := h3 j hj
      simpa [List.range_eq_range'] using this
  refine ⟨hgen, ?_, ?_⟩
  · obtain ⟨d, heq, hstop, hmin⟩ := hgen mockPagesA 1000
    have hd : d = 3 := by
      rcases Nat.lt_trichotomy d 3 with h | h | h
      · exfalso
        interval_cases d
        · rcases hstop with h' | h'
          · simp at h'
          · simp [mockPagesA] at h'
        · rcases hstop with h' | h'
          · rw [show (1 : Nat) = 0 + 1 from rfl, List.range_succ] at h'
            simp [mockPagesA] at h'
          · simp [mockPagesA] at h'
        · rcases hstop with h' | h'
          · rw [show (2 : Nat) = 1 + 1 from rfl, List.range_succ,
                show (1 : Nat) = 0 + 1 from rfl, List.range_succ] at h'
            simp [mockPagesA] at h'
          · simp [mockPagesA] at h'
      · exact h
      · exact absurd (hmin 3 h).2 (by simp [mockPagesA])
    rw [hd] at heq
    rw [heq, show (3 : Nat) = 2 + 1 from rfl, List.range_succ,
        show (2 : Nat) = 1 + 1 from rfl, List.range_succ,
        show (1 : Nat) = 0 + 1 from rfl, List.range_succ]
    simp [mockPagesA]
  · obtain ⟨d, heq, hstop, hmin⟩ := hgen mockPagesB 200
    have hd : d = 2 := by
      rcases Nat.lt_trichotomy d 2 with h | h | h
      · exfalso
        interval_cases d
        · rcases hstop with h' | h'
          · simp at h'
          · simp [mockPagesB] at h'
        · rcases hstop with h' | h'
          · rw [show (1 : Nat) = 0 + 1 from rfl, List.range_succ] at h'
            simp [mockPagesB] at h'
          · simp [mockPagesB] at h'
      · exact h
      · exfalso
        have := (hmin 2 h).1
        rw [show (2 : Nat) = 1 + 1 from rfl, List.range_succ,
            show (1 : Nat) = 0 + 1 from rfl, List.range_succ] at this
        simp [mockPagesB] at this
    rw [hd] at heq
    rw [heq, show (2 : Nat) = 1 + 1 from rfl, List.range_succ,
        show (1 : Nat) = 0 + 1 from rfl, List.range_succ]
    simp [mockPagesB]

/-! ### Column-wise characterization of the shared projection -/

/-- The column of projected values for one source field: the newline-stripped
`rev[rk]` of every record, in order (`none` as soon as a record lacks the
field). -/
def colProj (rk : String) : List Rec → Option (List Value)
  | [] => some []
  | r :: rest =>
    (pyGet r rk).bind (fun v => (colProj rk rest).map (fun d => projectValue v :: d))

/-- Unfolding of `colProj` on a record cons. -/
lemma colProj_cons (rk : String) (r : Rec) (rest : List Rec) :
    colProj rk (r :: rest) =
      (pyGet r rk).bind (fun v => (colProj rk rest).map (fun d => projectValue v :: d)) := rfl

/-- Symbolic evaluation of the projection loop body on the explicit
column state of this caller. -/
lemma projectRow_ps (r : Rec) (c0 : List Value) (c1 : List Value) (c2 : List Value) (c3 : List Value) (c4 : List Value) (c5 : List Value) (c6 : List Value) :
    projectRow r (psRevsCols.zip psDatasetCols)
      [("Datetime", c0), ("Username", c1), ("Review", c2), ("Rating", c3), ("Reply", c4), ("Reply Datetime", c5), ("Thumbs Up", c6)]
    = (pyGet r "at").bind (fun v0 =>
      (pyGet r "userName").bind (fun v1 =>
      (pyGet r "content").bind (fun v2 =>
      (pyGet r "score").bind (fun v3 =>
      (pyGet r "replyContent").bind (fun v4 =>
      (pyGet r "repliedAt").bind (fun v5 =>
      (pyGet r "thumbsUpCount").map (fun v6 =>
        [("Datetime", c0 ++ [projectValue v0]), ("Username", c1 ++ [projectValue v1]), ("Review", c2 ++ [projectValue v2]), ("Rating", c3 ++ [projectValue v3]), ("Reply", c4 ++ [projectValue v4]), ("Reply Datetime", c5 ++ [projectValue v5]), ("Thumbs Up", c6 ++ [projectValue v6])]))))))) := by
  cases h0 : pyGet r "at" with
  | none => simp [projectRow, appendCell, h0]
  | some v0 =>
    cases h1 : pyGet r "userName" with
    | none => simp [projectRow, appendCell, h0, h1]
    | some v1 =>
      cases h2 : pyGet r "content" with
      | none => simp [projectRow, appendCell, h0, h1, h2]
      | some v2 =>
        cases h3 : pyGet r "score" with
        | none => simp [projectRow, appendCell, h0, h1, h2, h3]
        | some v3 =>
          cases h4 : pyGet r "replyContent" with
          | none => simp [projectRow, appendCell, h0, h1, h2, h3, h4]
          | some v4 =>
            cases h5 : pyGet r "repliedAt" with
            | none => simp [projectRow, appendCell, h0, h1, h2, h3, h4, h5]
            | some v5 =>
              cases h6 : pyGet r "thumbsUpCount" with
              | none => simp [projectRow, appendCell, h0, h1, h2, h3, h4, h5, h6]
              | some v6 =>
                simp [projectRow, appendCell, h0, h1, h2, h3, h4, h5, h6]

/-- Symbolic evaluation of the projection loop body on the explicit
column state of this caller. -/
lemma projectRow_as (r : Rec) (c0 : List Value) (c1 : List Value) (c2 : List Value) (c3 : List Value) (c4 : List Value) (c5 : List Value) :
    projectRow r (asRevsCols.zip asDatasetCols)
      [("Datetime", c0), ("Username", c1), ("Review", c2), ("Rating", c3), ("Reply", c4), ("Reply Datetime", c5)]
    = (pyGet r "date").bind (fun v0 =>
      (pyGet r "userName").bind (fun v1 =>
      (pyGet r "review").bind (fun v2 =>
      (pyGet r "rating").bind (fun v3 =>
      (pyGet r "replyContent").bind (fun v4 =>
      (pyGet r "repliedAt").map (fun v5 =>
        [("Datetime", c0 ++ [projectValue v0]), ("Username", c1 ++ [projectValue v1]), ("Review", c2 ++ [projectValue v2]), ("Rating", c3 ++ [projectValue v3]), ("Reply", c4 ++ [projectValue v4]), ("Reply Datetime", c5 ++ [projectValue v5])])))))) := by
  cases h0 : pyGet r "date" with
  | none => simp [projectRow, appendCell, h0]
  | some v0 =>
    cases h1 : pyGet r "userName" with
    | none => simp [projectRow, appendCell, h0, h1]
    | some v1 =>
      cases h2 : pyGet r "review" with
      | none => simp [projectRow, appendCell, h0, h1, h2]
      | some v2 =>
        cases h3 : pyGet r "rating" with
        | none => simp [projectRow, appendCell, h0, h1, h2, h3]
        | some v3 =>
          cases h4 : pyGet r "replyContent" with
          | none => simp [projectRow, appendCell, h0, h1, h2, h3, h4]
          | some v4 =>
            cases h5 : pyGet r "repliedAt" with
            | none => simp [projectRow, appendCell, h0, h1, h2, h3, h4, h5]
            | some v5 =>
              simp [projectRow, appendCell, h0, h1, h2, h3, h4, h5]

/-- The record loop of the projection, run over all records from the
initial column state of this caller, builds each output column as the
list of newline-stripped looked-up source fields, in record order. -/
lemma fold_ps (revs : List Rec) : ∀ (c0 : List Value) (c1 : List Value) (c2 : List Value) (c3 : List Value) (c4 : List Value) (c5 : List Value) (c6 : List Value),
    revs.foldlM (fun ds rev => projectRow rev (psRevsCols.zip psDatasetCols) ds)
      [("Datetime", c0), ("Username", c1), ("Review", c2), ("Rating", c3), ("Reply", c4), ("Reply Datetime", c5), ("Thumbs Up", c6)]
    = (colProj "at" revs).bind (fun d0 =>
      (colProj "userName" revs).bind (fun d1 =>
      (colProj "content" revs).bind (fun d2 =>
      (colProj "score" revs).bind (fun d3 =>
      (colProj "replyContent" revs).bind (fun d4 =>
      (colProj "repliedAt" revs).bind (fun d5 =>
      (colProj "thumbsUpCount" revs).map (fun d6 =>
        [("Datetime", c0 ++ d0), ("Username", c1 ++ d1), ("Review", c2 ++ d2), ("Rating", c3 ++ d3), ("Reply", c4 ++ d4), ("Reply Datetime", c5 ++ d5), ("Thumbs Up", c6 ++ d6)]))))))) := by
  induction revs with
  | nil =>
    intro c0 c1 c2 c3 c4 c5 c6
    simp [colProj]
  | cons r rest ih =>
    intro c0 c1 c2 c3 c4 c5 c6
    rw [List.foldlM_cons, projectRow_ps]
    cases h0 : pyGet r "at" with
    | none => simp [colProj_cons, h0]
    | some v0 =>
      cases h1 : pyGet r "userName" with
      | none => simp [colProj_cons, h0, h1]
      | some v1 =>
        cases h2 : pyGet r "content" with
        | none => simp [colProj_cons, h0, h1, h2]
        | some v2 =>
          cases h3 : pyGet r "score" with
          | none => simp [colProj_cons, h0, h1, h2, h3]
          | some v3 =>
            cases h4 : pyGet r "replyContent" with
            | none => simp [colProj_cons, h0, h1, h2, h3, h4]
            | some v4 =>
              cases h5 : pyGet r "repliedAt" with
              | none => simp [colProj_cons, h0, h1, h2, h3, h4, h5]
              | some v5 =>
                cases h6 : pyGet r "thumbsUpCount" with
                | none => simp [colProj_cons, h0, h1, h2, h3, h4, h5, h6]
                | some v6 =>
                  simp [ih, colProj_cons, h0, h1, h2, h3, h4, h5, h6, Option.bind_map, Function.comp, Function.comp_def, List.append_assoc]

/-- The record loop of the projection, run over all records from the
initial column state of this caller, builds each output column as the
list of newline-stripped looked-up source fields, in record order. -/
lemma fold_as (revs : List Rec) : ∀ (c0 : List Value) (c1 : List Value) (c2 : List Value) (c3 : List Value) (c4 : List Value) (c5 : List Value),
    revs.foldlM (fun ds rev => projectRow rev (asRevsCols.zip asDatasetCols) ds)
      [("Datetime", c0), ("Username", c1), ("Review", c2), ("Rating", c3), ("Reply", c4), ("Reply Datetime", c5)]
    = (colProj "date" revs).bind (fun d0 =>
      (colProj "userName" revs).bind (fun d1 =>
      (colProj "review" revs).bind (fun d2 =>
      (colProj "rating" revs).bind (fun d3 =>
      (colProj "replyContent" revs).bind (fun d4 =>
      (colProj "repliedAt" revs).map (fun d5 =>
        [("Datetime", c0 ++ d0), ("Username", c1 ++ d1), ("Review", c2 ++ d2), ("Rating", c3 ++ d3), ("Reply", c4 ++ d4), ("Reply Datetime", c5 ++ d5)])))))) := by
  induction revs with
  | nil =>
    intro c0 c1 c2 c3 c4 c5
    simp [colProj]
  | cons r rest ih =>
    intro c0 c1 c2 c3 c4 c5
    rw [List.foldlM_cons, projectRow_as]
    cases h0 : pyGet r "date" with
    | none => simp [colProj_cons, h0]
    | some v0 =>
      cases h1 : pyGet r "userName" with
      | none => simp [colProj_cons, h0, h1]
      | some v1 =>
        cases h2 : pyGet r "review" with
        | none => simp [colProj_cons, h0, h1, h2]
        | some v2 =>
          cases h3 : pyGet r "rating" with
          | none => simp [colProj_cons, h0, h1, h2, h3]
          | some v3 =>
            cases h4 : pyGet r "replyContent" with
            | none => simp [colProj_cons, h0, h1, h2, h3, h4]
            | some v4 =>
              cases h5 : pyGet r "repliedAt" with
              | none => simp [colProj_cons, h0, h1, h2, h3, h4, h5]
              | some v5 =>
                simp [ih, colProj_cons, h0, h1, h2, h3, h4, h5, Option.bind_map, Function.comp, Function.comp_def, List.append_assoc]

/-- The header row of the Play Store output table. -/
def psHeader : List Value :=
  [Value.vStr (str "Datetime"), Value.vStr (str "Username"), Value.vStr (str "Review"),
   Value.vStr (str "Rating"), Value.vStr (str "Reply"), Value.vStr (str "Reply Datetime"),
   Value.vStr (str "Thumbs Up")]

/-- The header row of the App Store output table. -/
def asHeader : List Value :=
  [Value.vStr (str "Datetime"), Value.vStr (str "Username"), Value.vStr (str "Review"),
   Value.vStr (str "Rating"), Value.vStr (str "Reply"), Value.vStr (str "Reply Datetime")]

/-- Symbolic evaluation of the `"Datetime"` column update on the explicit
7-entry column state. -/
lemma updateDT_ps_first (c0 : List Value) (c1 : List Value) (c2 : List Value) (c3 : List Value) (c4 : List Value) (c5 : List Value) (c6 : List Value) :
    updateDatetimeEntry [("Datetime", c0), ("Username", c1), ("Review", c2), ("Rating", c3), ("Reply", c4), ("Reply Datetime", c5), ("Thumbs Up", c6)] "Datetime"
    = (c0.mapM formatDatetimeCell).map (fun e0 => [("Datetime", e0), ("Username", c1), ("Review", c2), ("Rating", c3), ("Reply", c4), ("Reply Datetime", c5), ("Thumbs Up", c6)]) := by
  simp [updateDatetimeEntry]

/-- Symbolic evaluation of the `"Reply Datetime"` column update on the
explicit 7-entry column state. -/
lemma updateDT_ps_reply (c0 : List Value) (c1 : List Value) (c2 : List Value) (c3 : List Value) (c4 : List Value) (c5 : List Value) (c6 : List Value) :
    updateDatetimeEntry [("Datetime", c0), ("Username", c1), ("Review", c2), ("Rating", c3), ("Reply", c4), ("Reply Datetime", c5), ("Thumbs Up", c6)] "Reply Datetime"
    = (c5.mapM formatDatetimeCell).map (fun e5 => [("Datetime", c0), ("Username", c1), ("Review", c2), ("Rating", c3), ("Reply", c4), ("Reply Datetime", e5), ("Thumbs Up", c6)]) := by
  simp [updateDatetimeEntry, Option.map_map, Function.comp_def]

/-- Symbolic evaluation of the `"Datetime"` column update on the explicit
6-entry column state. -/
lemma updateDT_as_first (c0 : List Value) (c1 : List Value) (c2 : List Value) (c3 : List Value) (c4 : List Value) (c5 : List Value) :
    updateDatetimeEntry [("Datetime", c0), ("Username", c1), ("Review", c2), ("Rating", c3), ("Reply", c4), ("Reply Datetime", c5)] "Datetime"
    = (c0.mapM formatDatetimeCell).map (fun e0 => [("Datetime", e0), ("Username", c1), ("Review", c2), ("Rating", c3), ("Reply", c4), ("Reply Datetime", c5)]) := by
  simp [updateDatetimeEntry]

/-- Symbolic evaluation of the `"Reply Datetime"` column update on the
explicit 6-entry column state. -/
lemma updateDT_as_reply (c0 : List Value) (c1 : List Value) (c2 : List Value) (c3 : List Value) (c4 : List Value) (c5 : List Value) :
    updateDatetimeEntry [("Datetime", c0), ("Username", c1), ("Review", c2), ("Rating", c3), ("Reply", c4), ("Reply Datetime", c5)] "Reply Datetime"
    = (c5.mapM formatDatetimeCell).map (fun e5 => [("Datetime", c0), ("Username", c1), ("Review", c2), ("Rating", c3), ("Reply", c4), ("Reply Datetime", e5)]) := by
  simp [updateDatetimeEntry, Option.map_map, Function.comp_def]

/-- Master characterization of a successful Play Store formatting run: the
table is the header row followed by the transpose of the per-field projected
columns, with the two datetime columns string-converted. -/
lemma ps_char {revs : List Rec} {table : List (List Value)}
    (h : format_playstore_reviews revs = some table) :
    ∃ d0 d1 d2 d3 d4 d5 d6 e0 e5p,
      colProj "at" revs = some d0
      ∧ colProj "userName" revs = some d1
      ∧ colProj "content" revs = some d2
      ∧ colProj "score" revs = some d3
      ∧ colProj "replyContent" revs = some d4
      ∧ colProj "repliedAt" revs = some d5
      ∧ colProj "thumbsUpCount" revs = some d6
      ∧ d0.mapM formatDatetimeCell = some e0
      ∧ d5.mapM formatDatetimeCell = some e5p
      ∧ table = psHeader :: transposeCols [e0, d1, d2, d3, d4, e5p, d6] := by
  unfold format_playstore_reviews format_generic at h
  rw [show initDataset psDatasetCols = [("Datetime", ([] : List Value)), ("Username", ([] : List Value)), ("Review", ([] : List Value)), ("Rating", ([] : List Value)), ("Reply", ([] : List Value)), ("Reply Datetime", ([] : List Value)), ("Thumbs Up", ([] : List Value))] from rfl, fold_ps] at h
  cases hc0 : colProj "at" revs with
  | none => rw [hc0] at h; simp at h
  | some d0 =>
    cases hc1 : colProj "userName" revs with
    | none => rw [hc1] at h; simp at h
    | some d1 =>
      cases hc2 : colProj "content" revs with
      | none => rw [hc2] at h; simp at h
      | some d2 =>
        cases hc3 : colProj "score" revs with
        | none => rw [hc3] at h; simp at h
        | some d3 =>
          cases hc4 : colProj "replyContent" revs with
          | none => rw [hc4] at h; simp at h
          | some d4 =>
            cases hc5 : colProj "repliedAt" revs with
            | none => rw [hc5] at h; simp at h
            | some d5 =>
              cases hc6 : colProj "thumbsUpCount" revs with
              | none => rw [hc6] at h; simp at h
              | some d6 =>
                rw [hc0, hc1, hc2, hc3, hc4, hc5, hc6] at h
                simp only [Option.bind_eq_bind, Option.some_bind, Option.map_some', List.nil_append] at h
                rw [updateDT_ps_first] at h
                cases he0 : d0.mapM formatDatetimeCell with
                | none => rw [he0] at h; simp at h
                | some e0 =>
                  rw [he0] at h
                  simp only [Option.map_some', Option.some_bind] at h
                  rw [updateDT_ps_reply] at h
                  cases he5 : d5.mapM formatDatetimeCell with
                  | none => rw [he5] at h; simp at h
                  | some e5p =>
                    rw [he5] at h
                    simp only [Option.map_some', Option.some_bind, Option.some.injEq] at h
                    refine ⟨d0, d1, d2, d3, d4, d5, d6, e0, e5p, rfl, rfl, rfl, rfl, rfl, rfl, rfl, he0, he5, ?_⟩
                    rw [← h]
                    simp [psHeader]

/-- Master characterization of a successful run of the shared projection with
the App Store column lists (the second stage of `formate_appstore_reviews`,
applied to the preprocessed records). -/
lemma as_char {revs : List Rec} {table : List (List Value)}
    (h : format_generic revs asDatasetCols asRevsCols = some table) :
    ∃ d0 d1 d2 d3 d4 d5 e0 e5p,
      colProj "date" revs = some d0
      ∧ colProj "userName" revs = some d1
      ∧ colProj "review" revs = some d2
      ∧ colProj "rating" revs = some d3
      ∧ colProj "replyContent" revs = some d4
      ∧ colProj "repliedAt" revs = some d5
      ∧ d0.mapM formatDatetimeCell = some e0
      ∧ d5.mapM formatDatetimeCell = some e5p
      ∧ table = asHeader :: transposeCols [e0, d1, d2, d3, d4, e5p] := by
  unfold format_generic at h
  rw [show initDataset asDatasetCols = [("Datetime", ([] : List Value)), ("Username", ([] : List Value)), ("Review", ([] : List Value)), ("Rating", ([] : List Value)), ("Reply", ([] : List Value)), ("Reply Datetime", ([] : List Value))] from rfl, fold_as] at h
  cases hc0 : colProj "date" revs with
  | none => rw [hc0] at h; simp at h
  | some d0 =>
    cases hc1 : colProj "userName" revs with
    | none => rw [hc1] at h; simp at h
    | some d1 =>
      cases hc2 : colProj "review" revs with
      | none => rw [hc2] at h; simp at h
      | some d2 =>
        cases hc3 : colProj "rating" revs with
        | none => rw [hc3] at h; simp at h
        | some d3 =>
          cases hc4 : colProj "replyContent" revs with
          | none => rw [hc4] at h; simp at h
          | some d4 =>
            cases hc5 : colProj "repliedAt" revs with
            | none => rw [hc5] at h; simp at h
            | some d5 =>
              rw [hc0, hc1, hc2, hc3, hc4, hc5] at h
              simp only [Option.bind_eq_bind, Option.some_bind, Option.map_some', List.nil_append] at h
              rw [updateDT_as_first] at h
              cases he0 : d0.mapM formatDatetimeCell with
              | none => rw [he0] at h; simp at h
              | some e0 =>
                rw [he0] at h
                simp only [Option.map_some', Option.some_bind] at h
                rw [updateDT_as_reply] at h
                cases he5 : d5.mapM formatDatetimeCell with
                | none => rw [he5] at h; simp at h
                | some e5p =>
                  rw [he5] at h
                  simp only [Option.map_some', Option.some_bind, Option.some.injEq] at h
                  refine ⟨d0, d1, d2, d3, d4, d5, e0, e5p, rfl, rfl, rfl, rfl, rfl, rfl, he0, he5, ?_⟩
                  rw [← h]
                  simp [asHeader]

/-! ### Digit and date-format lemmas -/

/-- Digit characters for values below ten are decimal digits. -/
lemma digitChar_isDigit {n : Nat} (h : n ≤ 9) : (digitChar n).isDigit = true := by
  interval_cases n <;> decide

/-- Every character of a fuelled decimal rendering is a decimal digit. -/
lemma decDigitsAux_isDigit : ∀ (fuel n : Nat), ∀ c ∈ decDigitsAux fuel n, c.isDigit = true := by
  intro fuel
  induction fuel with
  | zero => intro n c hc; simp [decDigitsAux] at hc
  | succ fuel ih =>
    intro n c hc
    rw [decDigitsAux] at hc
    split at hc
    · rename_i hn
      simp only [List.mem_singleton] at hc
      subst hc
      exact digitChar_isDigit (by omega)
    · rcases List.mem_append.mp hc with hc | hc
      · exact ih _ c hc
      · simp only [List.mem_singleton] at hc
        subst hc
        exact digitChar_isDigit (by omega)

/-- Every character of a decimal rendering is a decimal digit. -/
lemma decDigits_isDigit (n : Nat) : ∀ c ∈ decDigits n, c.isDigit = true :=
  decDigitsAux_isDigit (n + 1) n

/-- The fuelled rendering of a number below `10 ^ fuel` has at most `fuel`
digits. -/
lemma decDigitsAux_length : ∀ (fuel n : Nat), n < 10 ^ fuel →
    (decDigitsAux fuel n).length ≤ fuel := by
  intro fuel
  induction fuel with
  | zero => intro n h; simp [decDigitsAux]
  | succ fuel ih =>
    intro n h
    rw [decDigitsAux]
    split
    · simp
    · have hdiv : n / 10 < 10 ^ fuel := by
        rw [Nat.div_lt_iff_lt_mul (by omega)]
        calc n < 10 ^ (fuel + 1) := h
        _ = 10 ^ fuel * 10 := by rw [Nat.pow_succ]
      have := ih (n / 10) hdiv
      simp only [List.length_append, List.length_singleton]
      omega

/-- Above the sufficient fuel `k` (with `n < 10 ^ k`, `1 ≤ k`), the fuelled
rendering no longer depends on the fuel. -/
lemma decDigitsAux_fuel : ∀ (k : Nat), 1 ≤ k → ∀ (fuel n : Nat), n < 10 ^ k → k ≤ fuel →
    decDigitsAux fuel n = decDigitsAux k n := by
  intro k
  induction k with
  | zero => omega
  | succ k ih =>
    intro hk fuel n hn hf
    obtain ⟨f, rfl⟩ : ∃ f, fuel = f + 1 := ⟨fuel - 1, by omega⟩
    rw [decDigitsAux, decDigitsAux]
    split
    · rfl
    · rename_i hn10
      have hdiv : n / 10 < 10 ^ k := by
        rw [Nat.div_lt_iff_lt_mul (by omega)]
        calc n < 10 ^ (k + 1) := hn
        _ = 10 ^ k * 10 := by rw [Nat.pow_succ]
      rcases Nat.eq_zero_or_pos k with rfl | hkpos
      · simp at hdiv; omega
      · rw [ih hkpos f (n / 10) hdiv (by omega)]

/-- A number below ten renders as one digit. -/
lemma decDigits_length_lt10 {n : Nat} (h : n < 10) : (decDigits n).length = 1 := by
  simp [decDigits, decDigitsAux, h]

/-- A two-digit number renders as two digits. -/
lemma decDigits_length_two {n : Nat} (h1 : 10 ≤ n) (h2 : n < 100) :
    (decDigits n).length = 2 := by
  obtain ⟨m, rfl⟩ : ∃ m, n = m + 1 := ⟨n - 1, by omega⟩
  have hdiv : (m + 1) / 10 < 10 := by omega
  obtain ⟨f, hf⟩ : ∃ f, m = f + 1 := ⟨m - 1, by omega⟩
  rw [decDigits, decDigitsAux]
  rw [if_neg (by omega), hf, decDigitsAux, if_pos (by omega)]
  simp

/-- A number with at most four digits renders as at most four digits. -/
lemma decDigits_length_le_four {n : Nat} (h : n ≤ 9999) : (decDigits n).length ≤ 4 := by
  by_cases h10 : n < 10
  · rw [decDigits_length_lt10 h10]; omega
  · have h4 : n < 10 ^ 4 := by norm_num; omega
    rw [decDigits, decDigitsAux_fuel 4 (by omega) (n + 1) n h4 (by omega)]
    exact decDigitsAux_length 4 n h4

/-- A day or month value below 100 is zero-padded to exactly two characters. -/
lemma pad2_length {n : Nat} (h : n < 100) : (pad2 n).length = 2 := by
  unfold pad2
  split
  · rename_i h10
    simp [decDigits_length_lt10 h10]
  · exact decDigits_length_two (by omega) h

/-- A year value up to 9999 is zero-padded to exactly four characters. -/
lemma pad4_length {n : Nat} (h : n ≤ 9999) : (pad4 n).length = 4 := by
  unfold pad4
  have := decDigits_length_le_four h
  simp only [List.length_append, List.length_replicate]
  omega

/-- Every character of a padded two-digit field is a digit. -/
lemma pad2_isDigit (n : Nat) : ∀ c ∈ pad2 n, c.isDigit = true := by
  unfold pad2
  split
  · intro c hc
    rcases List.mem_cons.mp hc with rfl | hc
    · decide
    · exact decDigits_isDigit n c hc
  · exact decDigits_isDigit n

/-- Every character of a padded four-digit field is a digit. -/
lemma pad4_isDigit (n : Nat) : ∀ c ∈ pad4 n, c.isDigit = true := by
  unfold pad4
  intro c hc
  rcases List.mem_append.mp hc with hc | hc
  · rw [List.eq_of_mem_replicate hc]; decide
  · exact decDigits_isDigit n c hc

/-- A string value holds a newline-free string. -/
def NoNlValue (v : Value) : Prop := ∀ s, v = Value.vStr s → '\n' ∉ s

/-- The `DD/MM/YYYY` output shape of the datetime conversion: either the empty
string or two digits, a slash, two digits, a slash and four digits. -/
def IsDateCell (v : Value) : Prop :=
  v = Value.vStr [] ∨
  ∃ dd mm yy : List Char, v = Value.vStr (dd ++ '/' :: (mm ++ '/' :: yy))
    ∧ dd.length = 2 ∧ mm.length = 2 ∧ yy.length = 4
    ∧ (∀ c ∈ dd, c.isDigit = true) ∧ (∀ c ∈ mm, c.isDigit = true)
    ∧ (∀ c ∈ yy, c.isDigit = true)

/-- Newline-stripped values hold no newline. -/
lemma projectValue_noNl (u : Value) : NoNlValue (projectValue u) := by
  intro s hs
  cases u <;> simp [projectValue] at hs
  subst hs
  rw [pyReplace_nl_eq_filter]
  intro hmem
  have := List.of_mem_filter hmem
  simp at this

/-- Outputs of the datetime conversion hold no newline: they are empty or
consist of digits and slashes. -/
lemma formatDatetimeCell_noNl {v w : Value} (h : formatDatetimeCell v = some w) :
    NoNlValue w := by
  intro s hs
  cases v <;> simp [formatDatetimeCell] at h <;> subst h <;> simp at hs
  · subst hs; simp
  · subst hs
    intro hmem
    unfold strftime_dmY at hmem
    rcases List.mem_append.mp hmem with hc | hc
    · have := pad2_isDigit _ _ hc
      simp at this
    · rcases List.mem_cons.mp hc with hc | hc
      · simp at hc
      · rcases List.mem_append.mp hc with hc | hc
        · have := pad2_isDigit _ _ hc
          simp at this
        · rcases List.mem_cons.mp hc with hc | hc
          · simp at hc
          · have := pad4_isDigit _ _ hc
            simp at this
  · subst hs; simp

/-- Bounds under which a datetime value prints as `DD/MM/YYYY`: month and day
below 100 and year up to 9999 (Python `datetime` guarantees far tighter
bounds: month 1-12, day 1-31, year 1-9999). -/
def DTBounds (v : Value) : Prop :=
  ∀ y mo d hh mi ss, v = Value.vDT y mo d hh mi ss → mo < 100 ∧ d < 100 ∧ y ≤ 9999

/-- The datetime conversion sends bounded values to date-shaped cells. -/
lemma formatDatetimeCell_shape {v w : Value} (h : formatDatetimeCell v = some w)
    (hb : DTBounds v) : IsDateCell w := by
  cases v <;> simp [formatDatetimeCell] at h <;> subst h
  · left; rfl
  · rename_i y mo d hh mi ss
    obtain ⟨h1, h2, h3⟩ := hb y mo d hh mi ss rfl
    right
    refine ⟨pad2 d, pad2 mo, pad4 y, rfl, pad2_length h2, pad2_length h1,
      pad4_length h3, pad2_isDigit d, pad2_isDigit mo, pad4_isDigit y⟩
  · left; rfl

/-! ### Dict update lemmas and the App Store preprocessing -/

/-- Reading back the key just written. -/
lemma pyGet_pySet_same (rev : Rec) (k : String) (v : Value) :
    pyGet (pySet rev k v) k = some v := by
  induction rev with
  | nil => simp [pySet, pyGet]
  | cons p rest ih =>
    obtain ⟨k', v'⟩ := p
    by_cases hk : k = k'
    · subst hk; simp [pySet, pyGet]
    · simp [pySet, pyGet, hk, ih]

/-- Writing one key leaves every other key unchanged. -/
lemma pyGet_pySet_other (rev : Rec) {k k' : String} (v : Value) (h : k' ≠ k) :
    pyGet (pySet rev k v) k' = pyGet rev k' := by
  induction rev with
  | nil => simp [pySet, pyGet, h]
  | cons p rest ih =>
    obtain ⟨k0, v0⟩ := p
    by_cases hk : k = k0
    · subst hk
      simp [pySet, pyGet, h, ih]
    · by_cases hk' : k' = k0
      · subst hk'; simp [pySet, pyGet, hk]
      · simp [pySet, pyGet, hk, hk', ih]

/-- Case analysis of a successful App Store preprocessing step: the title and
review are strings-or-integers combined by `+`, and the reply fields are
synthesized either from the `developerResponse` sub-record or as empty
strings. -/
lemma prep_cases {rev rev' : Rec} (h : prepAppstoreReview rev = some rev') :
    ∃ t r tr, pyGet rev "title" = some t ∧ pyGet rev "review" = some r
      ∧ pyAdd t r = some tr ∧
      ((pyHasKey (pySet rev "review" tr) "developerResponse" = false ∧
        rev' = pySet (pySet (pySet rev "review" tr) "replyContent" (Value.vStr []))
                 "repliedAt" (Value.vStr []))
       ∨ (∃ dr body ms dtv,
            pyGet (pySet rev "review" tr) "developerResponse" = some dr ∧
            pyGetItem dr "body" = some body ∧
            pyGetItem dr "modified" = some (Value.vStr ms) ∧
            strptime_iso ms = some dtv ∧
            rev' = pySet (pySet (pySet rev "review" tr) "replyContent" body)
                     "repliedAt" dtv)) := by
  unfold prepAppstoreReview at h
  cases ht : pyGet rev "title" with
  | none => rw [ht] at h; simp at h
  | some t =>
    cases hr : pyGet rev "review" with
    | none => rw [ht, hr] at h; simp at h
    | some r =>
      rw [ht, hr] at h
      simp only [Option.bind_eq_bind, Option.some_bind] at h
      cases ha : pyAdd t r with
      | none => rw [ha] at h; simp at h
      | some tr =>
        rw [ha] at h
        simp only [Option.bind_eq_bind, Option.some_bind] at h
        refine ⟨t, r, tr, rfl, rfl, ha, ?_⟩
        cases hk : pyHasKey (pySet rev "review" tr) "developerResponse" with
        | false =>
          rw [hk] at h
          simp only [Bool.false_eq_true, if_false, Option.some.injEq] at h
          exact Or.inl ⟨rfl, h.symm⟩
        | true =>
          rw [hk] at h
          simp only [if_true] at h
          cases hdr : pyGet (pySet rev "review" tr) "developerResponse" with
          | none => rw [hdr] at h; simp at h
          | some dr =>
            rw [hdr] at h
            simp only [Option.bind_eq_bind, Option.some_bind] at h
            cases hb : pyGetItem dr "body" with
            | none => rw [hb] at h; simp at h
            | some body =>
              rw [hb] at h
              simp only [Option.bind_eq_bind, Option.some_bind] at h
              cases hm : pyGetItem dr "modified" with
              | none => rw [hm] at h; simp at h
              | some mv =>
                rw [hm] at h
                simp only [Option.bind_eq_bind, Option.some_bind] at h
                cases mv with
                | vStr ms =>
                  cases hdt : strptime_iso ms with
                  | none => simp [hdt] at h
                  | some dtv =>
                    simp only [hdt, Option.bind_eq_bind, Option.some_bind,
                      Option.some.injEq] at h
                    exact Or.inr ⟨dr, body, ms, dtv, rfl, hb, hm, hdt, h.symm⟩
                | vInt n => simp at h
                | vDT y mo d hh mi ss => simp at h
                | vNone => simp at h
                | vDict l => simp at h

/-! ### Column projection and transposition lemmas -/

/-- A successful column projection has one entry per record. -/
lemma colProj_length {rk : String} : ∀ {revs : List Rec} {d : List Value},
    colProj rk revs = some d → d.length = revs.length := by
  intro revs
  induction revs with
  | nil => intro d h; simp [colProj] at h; subst h; simp
  | cons r rest ih =>
    intro d h
    rw [colProj_cons] at h
    cases hg : pyGet r rk with
    | none => rw [hg] at h; simp at h
    | some v =>
      rw [hg] at h
      cases hc : colProj rk rest with
      | none => rw [hc] at h; simp at h
      | some drest =>
        rw [hc] at h
        simp only [Option.some_bind, Option.map_some', Option.some.injEq] at h
        subst h
        simp [ih hc]

/-- Every entry of a successful column projection is the newline-stripped
value of the source field of some input record. -/
lemma colProj_mem {rk : String} : ∀ {revs : List Rec} {d : List Value},
    colProj rk revs = some d → ∀ v ∈ d,
      ∃ rev ∈ revs, ∃ u, pyGet rev rk = some u ∧ v = projectValue u := by
  intro revs
  induction revs with
  | nil => intro d h; simp [colProj] at h; subst h; simp
  | cons r rest ih =>
    intro d h
    rw [colProj_cons] at h
    cases hg : pyGet r rk with
    | none => rw [hg] at h; simp at h
    | some v =>
      rw [hg] at h
      cases hc : colProj rk rest with
      | none => rw [hc] at h; simp at h
      | some drest =>
        rw [hc] at h
        simp only [Option.some_bind, Option.map_some', Option.some.injEq] at h
        subst h
        intro x hx
        rcases List.mem_cons.mp hx with rfl | hx
        · exact ⟨r, List.mem_cons_self r rest, v, hg, rfl⟩
        · obtain ⟨rev, hrev, u, hu, hx⟩ := ih hc x hx
          exact ⟨rev, List.mem_cons_of_mem _ hrev, u, hu, hx⟩

/-- Position-wise description of a successful column projection. -/
lemma colProj_getElem? {rk : String} : ∀ {revs : List Rec} {d : List Value},
    colProj rk revs = some d → ∀ j : Nat,
      d[j]? = (revs[j]?).bind (fun rev => (pyGet rev rk).map projectValue) := by
  intro revs
  induction revs with
  | nil => intro d h j; simp [colProj] at h; subst h; simp
  | cons r rest ih =>
    intro d h j
    rw [colProj_cons] at h
    cases hg : pyGet r rk with
    | none => rw [hg] at h; simp at h
    | some v =>
      rw [hg] at h
      cases hc : colProj rk rest with
      | none => rw [hc] at h; simp at h
      | some drest =>
        rw [hc] at h
        simp only [Option.some_bind, Option.map_some', Option.some.injEq] at h
        subst h
        cases j with
        | zero => simp [hg]
        | succ j => simpa using ih hc j

/-- Every value of a row of the transpose is a value of one of the columns,
or the (never read in range) transposition default. -/
lemma transposeCols_mem {cols : List (List Value)} {row : List Value} {v : Value}
    (hr : row ∈ transposeCols cols) (hv : v ∈ row) :
    v = Value.vNone ∨ ∃ col ∈ cols, v ∈ col := by
  unfold transposeCols at hr
  obtain ⟨j, hj, rfl⟩ := List.mem_map.mp hr
  obtain ⟨col, hcol, rfl⟩ := List.mem_map.mp hv
  rcases hlt : col[j]? with _ | x
  · left
    rw [List.getD_eq_getElem?_getD, hlt]
    rfl
  · right
    refine ⟨col, hcol, ?_⟩
    rw [List.getD_eq_getElem?_getD, hlt]
    exact List.getElem?_mem hlt

/-- Row count and per-row cell access of the transpose: row `j` holds the
`j`-th cell of every column, in column order. -/
lemma transposeCols_getElem? {cols : List (List Value)} {j : Nat}
    (hj : j < (cols.headD []).length) :
    (transposeCols cols)[j]? = some (cols.map (fun col => col.getD j Value.vNone)) := by
  unfold transposeCols
  rw [List.getElem?_map, List.getElem?_range hj]
  rfl

/-- The number of rows of the transpose is the length of the first column. -/
lemma transposeCols_length (cols : List (List Value)) :
    (transposeCols cols).length = (cols.headD []).length := by
  simp [transposeCols]

/-- A successful App Store formatting run splits into the preprocessing pass
and the shared projection on the preprocessed records. -/
lemma formate_as_split {revs : List Rec} {table : List (List Value)}
    (h : formate_appstore_reviews revs = some table) :
    ∃ revs2, revs.mapM prepAppstoreReview = some revs2 ∧
      format_generic revs2 asDatasetCols asRevsCols = some table := by
  unfold formate_appstore_reviews at h
  cases hm : revs.mapM prepAppstoreReview with
  | none => rw [hm] at h; simp at h
  | some revs2 =>
    rw [hm] at h
    simp only [Option.bind_eq_bind, Option.some_bind] at h
    exact ⟨revs2, rfl, h⟩

/-! ### Bounds carried by parsed timestamps -/

/-- Parsed digits are at most nine. -/
lemma digitVal_le {c : Char} {n : Nat} (h : digitVal c = some n) : n ≤ 9 := by
  unfold digitVal at h
  split at h
  · rename_i hc
    injection h with h
    omega
  · exact nomatch h

/-- Two parsed digits give a value below 100. -/
lemma parse2_lt {s rest : List Char} {n : Nat} (h : parse2 s = some (n, rest)) :
    n < 100 := by
  unfold parse2 at h
  split at h
  · rename_i a b rest'
    cases hda : digitVal a with
    | none => rw [hda] at h; simp at h
    | some da =>
      cases hdb : digitVal b with
      | none => rw [hda, hdb] at h; simp at h
      | some db =>
        rw [hda, hdb] at h
        simp only [Option.bind_eq_bind, Option.some_bind, Option.some.injEq,
          Prod.mk.injEq] at h
        have h1 := digitVal_le hda
        have h2 := digitVal_le hdb
        omega
  · simp at h

/-- Four parsed digits give a value below 10000. -/
lemma parse4_lt {s rest : List Char} {n : Nat} (h : parse4 s = some (n, rest)) :
    n < 10000 := by
  unfold parse4 at h
  split at h
  · rename_i a b c d rest'
    cases hda : digitVal a with
    | none => rw [hda] at h; simp at h
    | some da =>
      cases hdb : digitVal b with
      | none => rw [hda, hdb] at h; simp at h
      | some db =>
        cases hdc : digitVal c with
        | none => rw [hda, hdb, hdc] at h; simp at h
        | some dc =>
          cases hdd : digitVal d with
          | none => rw [hda, hdb, hdc, hdd] at h; simp at h
          | some dd =>
            rw [hda, hdb, hdc, hdd] at h
            simp only [Option.bind_eq_bind, Option.some_bind, Option.some.injEq,
              Prod.mk.injEq] at h
            have h1 := digitVal_le hda
            have h2 := digitVal_le hdb
            have h3 := digitVal_le hdc
            have h4 := digitVal_le hdd
            omega
  · simp at h

/-- A parsed timestamp is a datetime value within the bounds Python's
`datetime` guarantees. -/
lemma strptime_bounds {ms : List Char} {v : Value} (h : strptime_iso ms = some v) :
    ∃ y mo d hh mi ss, v = Value.vDT y mo d hh mi ss
      ∧ 1 ≤ y ∧ y ≤ 9999 ∧ 1 ≤ mo ∧ mo ≤ 12 ∧ 1 ≤ d ∧ d ≤ 31
      ∧ hh ≤ 23 ∧ mi ≤ 59 ∧ ss ≤ 59 := by
  unfold strptime_iso at h
  cases h4 : parse4 ms with
  | none => rw [h4] at h; simp at h
  | some p4 =>
    obtain ⟨y, s1⟩ := p4
    rw [h4] at h
    simp only [Option.bind_eq_bind, Option.some_bind] at h
    cases he1 : expectChar '-' s1 with
    | none => rw [he1] at h; simp at h
    | some s2 =>
      rw [he1] at h
      simp only [Option.some_bind] at h
      cases h2 : parse2 s2 with
      | none => rw [h2] at h; simp at h
      | some p2 =>
        obtain ⟨mo, s3⟩ := p2
        rw [h2] at h
        simp only [Option.some_bind] at h
        cases he2 : expectChar '-' s3 with
        | none => rw [he2] at h; simp at h
        | some s4 =>
          rw [he2] at h
          simp only [Option.some_bind] at h
          cases h3 : parse2 s4 with
          | none => rw [h3] at h; simp at h
          | some p3 =>
            obtain ⟨d, s5⟩ := p3
            rw [h3] at h
            simp only [Option.some_bind] at h
            cases he3 : expectChar 'T' s5 with
            | none => rw [he3] at h; simp at h
            | some s6 =>
              rw [he3] at h
              simp only [Option.some_bind] at h
              cases h5 : parse2 s6 with
              | none => rw [h5] at h; simp at h
              | some p5 =>
                obtain ⟨hh, s7⟩ := p5
                rw [h5] at h
                simp only [Option.some_bind] at h
                cases he4 : expectChar ':' s7 with
                | none => rw [he4] at h; simp at h
                | some s8 =>
                  rw [he4] at h
                  simp only [Option.some_bind] at h
                  cases h6 : parse2 s8 with
                  | none => rw [h6] at h; simp at h
                  | some p6 =>
                    obtain ⟨mi, s9⟩ := p6
                    rw [h6] at h
                    simp only [Option.some_bind] at h
                    cases he5 : expectChar ':' s9 with
                    | none => rw [he5] at h; simp at h
                    | some s10 =>
                      rw [he5] at h
                      simp only [Option.some_bind] at h
                      cases h7 : parse2 s10 with
                      | none => rw [h7] at h; simp at h
                      | some p7 =>
                        obtain ⟨ss, s11⟩ := p7
                        rw [h7] at h
                        simp only [Option.some_bind] at h
                        cases he6 : expectChar 'Z' s11 with
                        | none => rw [he6] at h; simp at h
                        | some s12 =>
                          rw [he6] at h
                          simp only [Option.some_bind] at h
                          split at h
                          · rename_i hcond
                            simp only [Option.some.injEq] at h
                            obtain ⟨hc1, hc2, hc3, hc4, hc5, hc6, hc7, hc8, hc9⟩ := hcond
                            have hy := parse4_lt h4
                            have hday : daysInMonth y mo ≤ 31 := by
                              unfold daysInMonth
                              split
                              · split <;> omega
                              · split <;> omega
                            exact ⟨y, mo, d, hh, mi, ss, h.symm, hc2, by omega,
                              hc3, hc4, hc5, by omega, hc7, hc8, hc9⟩
                          · simp at h

/-! ### Claims C3 and C9: App Store URL extraction -/

/-- The specialised removal of `"id"` agrees with the general model of Python
`str.replace` at the pattern `"id"` with empty replacement. -/
theorem pyReplace_id_eq (s : List Char) : pyReplace_id s = pyStrReplace (str "id") [] s := by
  have hid : str "id" = ['i', 'd'] := rfl
  induction s using pyReplace_id.induct with
  | case1 rest ih =>
    rw [pyStrReplace.eq_def]
    simpa [pyReplace_id, List.isPrefixOf, str] using ih
  | case2 c rest h ih =>
    rw [pyReplace_id.eq_2 c rest h, pyStrReplace.eq_def]
    rw [hid] at ih ⊢
    by_cases hc : c = 'i'
    · subst hc
      cases rest with
      | nil => simp [List.isPrefixOf, ih]
      | cons c2 rest2 =>
        have hc2 : c2 ≠ 'd' := fun hh => h rest2 rfl (by rw [hh])
        simp only [List.isPrefixOf, ih]
        rw [if_neg (fun hh => hc2 (by simp at hh; exact hh.symm))]
    · simp only [List.isPrefixOf, ih]
      rw [if_neg (fun hh => hc (by simp at hh; exact hh.1.symm))]
  | case3 =>
    rw [pyStrReplace.eq_def]
    simp [pyReplace_id]

/-- Second definition following the words of claim C3 (for comparison with the
source translation): the last segment "with a literal `id` prefix stripped
(and nothing else altered)". -/
def spec_stripIdPrefixOnce (s : List Char) : List Char :=
  if (str "id").isPrefixOf s then s.drop 2 else s

/-- C3 counterexample: on a URL whose last segment is `"idid123"`, the code
returns app id `"123"` (Python `replace` removes every occurrence of
`"id"`), while stripping only a literal `id` prefix would give `"id123"`. -/
theorem c3_counterexample :
    get_app_id_name_from_appstore_url (str "https://apps.apple.com/a/idid123")
      = some (str "123", str "a")
  ∧ spec_stripIdPrefixOnce (str "idid123") = str "id123"
  ∧ ¬ (str "123" = str "id123") := by
  refine ⟨rfl, by rw [spec_stripIdPrefixOnce]; rfl, by decide⟩

/-- C3 (amended): for every URL whose `/`-split has at least two segments, the
extractor returns as app id the last segment with every (leftmost,
non-overlapping) occurrence of `"id"` removed — Python `str.replace`
semantics, not just a prefix strip — and as app name the second-to-last
segment; on the documented example URL it returns appId `"1377291789"` and
appName `"enel-x-way"`. -/
theorem c3_appstore_extraction (url last prev : List Char) (rest : List (List Char))
    (h : (pySplit '/' url).reverse = last :: prev :: rest) :
    get_app_id_name_from_appstore_url url = some (pyStrReplace (str "id") [] last, prev)
  ∧ get_app_id_name_from_appstore_url
      (str "https://apps.apple.com/it/app/enel-x-way/id1377291789")
      = some (str "1377291789", str "enel-x-way") := by
  constructor
  · unfold get_app_id_name_from_appstore_url
    rw [h]
    show some (pyReplace_id last, prev) = _
    rw [pyReplace_id_eq]
  · rfl

/-- Witness for C3 (amended) at the documented example URL. -/
theorem c3_appstore_extraction_witness :
    get_app_id_name_from_appstore_url
      (str "https://apps.apple.com/it/app/enel-x-way/id1377291789")
      = some (pyStrReplace (str "id") [] (str "id1377291789"), str "enel-x-way") :=
  (c3_appstore_extraction (str "https://apps.apple.com/it/app/enel-x-way/id1377291789")
    (str "id1377291789") (str "enel-x-way")
    [str "app", str "it", str "apps.apple.com", str "", str "https:"] rfl).1

/-- Splitting never produces the empty list of segments. -/
lemma pySplit_ne_nil (sep : Char) (s : List Char) : pySplit sep s ≠ [] := by
  induction s with
  | nil => simp [pySplit]
  | cons c cs ih =>
    rw [pySplit]
    split
    · simp
    · cases hsp : pySplit sep cs with
      | nil => simp
      | cons t ts => simp

/-- A string containing the separator splits into at least two segments. -/
lemma pySplit_length_two {sep : Char} {s : List Char} (h : sep ∈ s) :
    2 ≤ (pySplit sep s).length := by
  induction s with
  | nil => simp at h
  | cons c cs ih =>
    rw [pySplit]
    by_cases hc : c = sep
    · rw [if_pos hc]
      have := pySplit_ne_nil sep cs
      have : 0 < (pySplit sep cs).length := List.length_pos.mpr this
      simp only [List.length_cons]
      omega
    · rw [if_neg hc]
      have hmem : sep ∈ cs := by
        rcases List.mem_cons.mp h with rfl | hmem
        · exact absurd rfl hc
        · exact hmem
      have h2 := ih hmem
      cases hsp : pySplit sep cs with
      | nil => exact absurd hsp (pySplit_ne_nil sep cs)
      | cons t ts =>
        rw [hsp] at h2
        simpa using h2

/-- C9 counterexample: the URL `"apps.apple.com"` contains the App Store
marker, yet extraction fails (`url.split("/")[-2]` raises `IndexError`
because the split has a single segment), so extraction is not total on
matched URLs. -/
theorem c9_counterexample :
    pyIn (str "apps.apple.com") (str "apps.apple.com") = true
  ∧ get_app_id_name_from_appstore_url (str "apps.apple.com") = none :=
  ⟨rfl, rfl⟩

/-- C9 (amended): for every URL that contains the App Store marker and at
least one `/` character, extraction returns a pair of strings without
raising; no validation of the extracted id or name is performed. -/
theorem c9_appstore_extraction_total (url : List Char)
    (hm : str "apps.apple.com" <:+: url) (hs : '/' ∈ url) :
    ∃ appId appName, get_app_id_name_from_appstore_url url = some (appId, appName) := by
  have hlen : 2 ≤ (pySplit '/' url).length := pySplit_length_two hs
  have hlen' : 2 ≤ ((pySplit '/' url).reverse).length := by simpa using hlen
  unfold get_app_id_name_from_appstore_url
  cases hrev : (pySplit '/' url).reverse with
  | nil => rw [hrev] at hlen'; simp at hlen'
  | cons a t =>
    cases t with
    | nil => rw [hrev] at hlen'; simp at hlen'
    | cons b t2 => exact ⟨pyReplace_id a, b, rfl⟩

/-- Witness for C9 (amended) at a marker-containing URL with a slash. -/
theorem c9_appstore_extraction_total_witness :
    ∃ appId appName,
      get_app_id_name_from_appstore_url (str "https://apps.apple.com/it/app/x/id77")
        = some (appId, appName) :=
  c9_appstore_extraction_total (str "https://apps.apple.com/it/app/x/id77")
    ((pyIn_iff_contains _ _).mp rfl) (by decide)

/-! ### Claims C10 and C8: empty input and determinism -/

/-- C10: on the empty list of raw reviews, both formatters return the table
consisting of exactly the header row with the canonical column names in
order, and no data rows. -/
theorem c10_empty_input_header_only :
    formate_appstore_reviews [] = some [asHeader]
  ∧ format_playstore_reviews [] = some [psHeader] :=
  ⟨rfl, rfl⟩

/-- C8: normalization is deterministic with no hidden state — the table
output is a function of the input value alone, so two runs on identical
raw-review batches produce identical tables.  (The Python source mutates the
raw records in place, but with identical fresh inputs the output is still
determined by the input value; the model makes this explicit.) -/
theorem c8_formatting_deterministic (revs1 revs2 : List Rec) (h : revs1 = revs2) :
    formate_appstore_reviews revs1 = formate_appstore_reviews revs2
  ∧ format_playstore_reviews revs1 = format_playstore_reviews revs2 := by
  subst h
  exact ⟨rfl, rfl⟩

/-- Witness for C8 at a concrete one-record batch. -/
theorem c8_formatting_deterministic_witness :
    formate_appstore_reviews [[("title", Value.vStr (str "Great"))]]
      = formate_appstore_reviews [[("title", Value.vStr (str "Great"))]]
  ∧ format_playstore_reviews [[("at", Value.vNone)]]
      = format_playstore_reviews [[("at", Value.vNone)]] :=
  c8_formatting_deterministic _ _ rfl

/-! ### Claim C4: newline removal -/

/-- The Play Store header holds no newline. -/
lemma psHeader_noNl : ∀ v ∈ psHeader, NoNlValue v := by
  intro v hv
  rcases (by simpa [psHeader] using hv) with rfl | rfl | rfl | rfl | rfl | rfl | rfl <;>
    · intro s hs
      injection hs with h
      subst h
      decide

/-- The App Store header holds no newline. -/
lemma asHeader_noNl : ∀ v ∈ asHeader, NoNlValue v := by
  intro v hv
  rcases (by simpa [asHeader] using hv) with rfl | rfl | rfl | rfl | rfl | rfl <;>
    · intro s hs
      injection hs with h
      subst h
      decide

/-- No cell of a successfully produced Play Store table holds a newline. -/
lemma ps_table_noNl {revs : List Rec} {table : List (List Value)}
    (h : format_playstore_reviews revs = some table) :
    ∀ row ∈ table, ∀ v ∈ row, NoNlValue v := by
  obtain ⟨d0, d1, d2, d3, d4, d5, d6, e0, e5p, hc0, hc1, hc2, hc3, hc4, hc5, hc6,
    he0, he5, htab⟩ := ps_char h
  subst htab
  intro row hrow v hv
  rcases List.mem_cons.mp hrow with rfl | hrow
  · exact psHeader_noNl v hv
  · rcases transposeCols_mem hrow hv with rfl | ⟨col, hcol, hvcol⟩
    · exact fun s hs => nomatch hs
    · rcases (by simpa using hcol) with rfl | rfl | rfl | rfl | rfl | rfl | rfl
      · obtain ⟨u, hu, hfu⟩ := mapM_option_mem _ he0 v hvcol
        exact formatDatetimeCell_noNl hfu
      · obtain ⟨rev, hrev, u, hu, rfl⟩ := colProj_mem hc1 v hvcol
        exact projectValue_noNl u
      · obtain ⟨rev, hrev, u, hu, rfl⟩ := colProj_mem hc2 v hvcol
        exact projectValue_noNl u
      · obtain ⟨rev, hrev, u, hu, rfl⟩ := colProj_mem hc3 v hvcol
        exact projectValue_noNl u
      · obtain ⟨rev, hrev, u, hu, rfl⟩ := colProj_mem hc4 v hvcol
        exact projectValue_noNl u
      · obtain ⟨u, hu, hfu⟩ := mapM_option_mem _ he5 v hvcol
        exact formatDatetimeCell_noNl hfu
      · obtain ⟨rev, hrev, u, hu, rfl⟩ := colProj_mem hc6 v hvcol
        exact projectValue_noNl u

/-- No cell of a successfully produced App Store table holds a newline. -/
lemma as_table_noNl {revs : List Rec} {table : List (List Value)}
    (h : formate_appstore_reviews revs = some table) :
    ∀ row ∈ table, ∀ v ∈ row, NoNlValue v := by
  obtain ⟨revs2, hprep, hgen⟩ := formate_as_split h
  obtain ⟨d0, d1, d2, d3, d4, d5, e0, e5p, hc0, hc1, hc2, hc3, hc4, hc5,
    he0, he5, htab⟩ := as_char hgen
  subst htab
  intro row hrow v hv
  rcases List.mem_cons.mp hrow with rfl | hrow
  · exact asHeader_noNl v hv
  · rcases transposeCols_mem hrow hv with rfl | ⟨col, hcol, hvcol⟩
    · exact fun s hs => nomatch hs
    · rcases (by simpa using hcol) with rfl | rfl | rfl | rfl | rfl | rfl
      · obtain ⟨u, hu, hfu⟩ := mapM_option_mem _ he0 v hvcol
        exact formatDatetimeCell_noNl hfu
      · obtain ⟨rev, hrev, u, hu, rfl⟩ := colProj_mem hc1 v hvcol
        exact projectValue_noNl u
      · obtain ⟨rev, hrev, u, hu, rfl⟩ := colProj_mem hc2 v hvcol
        exact projectValue_noNl u
      · obtain ⟨rev, hrev, u, hu, rfl⟩ := colProj_mem hc3 v hvcol
        exact projectValue_noNl u
      · obtain ⟨rev, hrev, u, hu, rfl⟩ := colProj_mem hc4 v hvcol
        exact projectValue_noNl u
      · obtain ⟨u, hu, hfu⟩ := mapM_option_mem _ he5 v hvcol
        exact formatDatetimeCell_noNl hfu

/-- C4: the shared projection stores every string-typed field value with all
newline characters deleted (no replacement character, all other characters in
their original relative order), and consequently no string cell of either
platform's output table contains a literal newline. -/
theorem c4_newline_removal :
    (∀ s : List Char, pyReplace_nl s = s.filter (fun c => c != '\n'))
  ∧ (∀ (revs : List Rec) (table : List (List Value)),
      format_playstore_reviews revs = some table →
      ∀ row ∈ table, ∀ v ∈ row, ∀ s, v = Value.vStr s → '\n' ∉ s)
  ∧ (∀ (revs : List Rec) (table : List (List Value)),
      formate_appstore_reviews revs = some table →
      ∀ row ∈ table, ∀ v ∈ row, ∀ s, v = Value.vStr s → '\n' ∉ s) :=
  ⟨pyReplace_nl_eq_filter,
   fun _ _ h row hrow v hv => ps_table_noNl h row hrow v hv,
   fun _ _ h row hrow v hv => as_table_noNl h row hrow v hv⟩

/-- A Play Store record with newlines in its text fields, used as witness
input. -/
def wpsRec : Rec :=
  [("at", Value.vNone), ("userName", Value.vStr (str "bob\ncarol")),
   ("content", Value.vStr (str "a\nb")), ("score", Value.vInt 5),
   ("replyContent", Value.vNone), ("repliedAt", Value.vNone),
   ("thumbsUpCount", Value.vInt 3)]

/-- The data row the pipeline produces for `wpsRec`. -/
def wpsRow : List Value :=
  [Value.vStr [], Value.vStr (str "bobcarol"), Value.vStr (str "ab"),
   Value.vInt 5, Value.vNone, Value.vStr [], Value.vInt 3]

/-- Witness for C4 at a concrete one-record batch whose username contains a
newline: the produced Username cell is newline-free. -/
theorem c4_newline_removal_witness : '\n' ∉ str "bobcarol" :=
  c4_newline_removal.2.1 [wpsRec] [psHeader, wpsRow] rfl wpsRow (by simp)
    (Value.vStr (str "bobcarol")) (by simp [wpsRow]) (str "bobcarol") rfl

/-! ### Claim C7: ratings and thumbs-up counts pass through unchanged -/

/-- The App Store preprocessing writes only the `review`, `replyContent` and
`repliedAt` fields; every other field is unchanged. -/
lemma prep_preserves {rev rev' : Rec} (h : prepAppstoreReview rev = some rev')
    (k : String) (h1 : k ≠ "review") (h2 : k ≠ "replyContent") (h3 : k ≠ "repliedAt") :
    pyGet rev' k = pyGet rev k := by
  obtain ⟨t, r, tr, _, _, _, hcase⟩ := prep_cases h
  rcases hcase with ⟨_, rfl⟩ | ⟨dr, body, ms, dtv, _, _, _, _, rfl⟩ <;>
    rw [pyGet_pySet_other _ _ h3, pyGet_pySet_other _ _ h2, pyGet_pySet_other _ _ h1]

/-- C7: the Rating cell (and, for the Play Store, the Thumbs Up cell) of data
row `j` of the emitted table is exactly the raw integer score / thumbs-up
count of input record `j`, copied through unchanged. -/
theorem c7_rating_passthrough :
    (∀ (revs : List Rec) (table : List (List Value)) (j : Nat) (rev : Rec) (n m : Int),
      format_playstore_reviews revs = some table →
      revs[j]? = some rev →
      pyGet rev "score" = some (Value.vInt n) →
      pyGet rev "thumbsUpCount" = some (Value.vInt m) →
      ∃ row, table[j + 1]? = some row
        ∧ row[3]? = some (Value.vInt n) ∧ row[6]? = some (Value.vInt m))
  ∧ (∀ (revs : List Rec) (table : List (List Value)) (j : Nat) (rev : Rec) (n : Int),
      formate_appstore_reviews revs = some table →
      revs[j]? = some rev →
      pyGet rev "rating" = some (Value.vInt n) →
      ∃ row, table[j + 1]? = some row ∧ row[3]? = some (Value.vInt n)) := by
  constructor
  · intro revs table j rev n m h hj hscore hthumbs
    obtain ⟨d0, d1, d2, d3, d4, d5, d6, e0, e5p, hc0, hc1, hc2, hc3, hc4, hc5, hc6,
      he0, he5, rfl⟩ := ps_char h
    have hjlen : j < revs.length := by
      by_contra hge
      rw [List.getElem?_eq_none (by omega)] at hj
      exact nomatch hj
    have he0len : e0.length = revs.length := by
      rw [mapM_option_length _ he0, colProj_length hc0]
    have hrow : j < (([e0, d1, d2, d3, d4, e5p, d6].headD []).length) := by
      simpa [he0len] using hjlen
    refine ⟨[e0, d1, d2, d3, d4, e5p, d6].map (fun col => col.getD j Value.vNone), ?_, ?_, ?_⟩
    · rw [List.getElem?_cons_succ, transposeCols_getElem? hrow]
    · have h3 := colProj_getElem? hc3 j
      rw [hj] at h3
      simp only [Option.some_bind, hscore, Option.map_some'] at h3
      show some (d3.getD j Value.vNone) = _
      rw [List.getD_eq_getElem?_getD, h3]
      rfl
    · have h6 := colProj_getElem? hc6 j
      rw [hj] at h6
      simp only [Option.some_bind, hthumbs, Option.map_some'] at h6
      show some (d6.getD j Value.vNone) = _
      rw [List.getD_eq_getElem?_getD, h6]
      rfl
  · intro revs table j rev n h hj hrating
    obtain ⟨revs2, hprep, hgen⟩ := formate_as_split h
    obtain ⟨d0, d1, d2, d3, d4, d5, e0, e5p, hc0, hc1, hc2, hc3, hc4, hc5,
      he0, he5, rfl⟩ := as_char hgen
    have hjlen : j < revs.length := by
      by_contra hge
      rw [List.getElem?_eq_none (by omega)] at hj
      exact nomatch hj
    have hlen2 : revs2.length = revs.length := mapM_option_length _ hprep
    have hj2 := mapM_option_getElem? _ hprep j
    rw [hj] at hj2
    simp only [Option.some_bind] at hj2
    cases hp : prepAppstoreReview rev with
    | none =>
      rw [hp] at hj2
      rw [List.getElem?_eq_none_iff] at hj2
      omega
    | some rev2 =>
      rw [hp] at hj2
      have hrating2 : pyGet rev2 "rating" = some (Value.vInt n) := by
        rw [prep_preserves hp "rating" (by decide) (by decide) (by decide), hrating]
      have he0len : e0.length = revs.length := by
        rw [mapM_option_length _ he0, colProj_length hc0, hlen2]
      have hrow : j < (([e0, d1, d2, d3, d4, e5p].headD []).length) := by
        simpa [he0len] using hjlen
      refine ⟨[e0, d1, d2, d3, d4, e5p].map (fun col => col.getD j Value.vNone), ?_, ?_⟩
      · rw [List.getElem?_cons_succ, transposeCols_getElem? hrow]
      · have h3 := colProj_getElem? hc3 j
        rw [hj2] at h3
        simp only [Option.some_bind, hrating2, Option.map_some'] at h3
        show some (d3.getD j Value.vNone) = _
        rw [List.getD_eq_getElem?_getD, h3]
        rfl

/-- An App Store record for witness inputs: title `"Great"`, review `" app"`,
rating 5, no developer response. -/
def wasRec : Rec :=
  [("date", Value.vNone), ("userName", Value.vStr (str "alice")),
   ("review", Value.vStr (str " app")), ("rating", Value.vInt 5),
   ("isEdited", Value.vNone), ("title", Value.vStr (str "Great"))]

/-- The data row the pipeline produces for `wasRec`. -/
def wasRow : List Value :=
  [Value.vStr [], Value.vStr (str "alice"), Value.vStr (str "Great app"),
   Value.vInt 5, Value.vStr [], Value.vStr []]

/-- Witness for C7 at concrete one-record batches for both platforms. -/
theorem c7_rating_passthrough_witness :
    (∃ row, ([psHeader, wpsRow] : List (List Value))[1]? = some row
      ∧ row[3]? = some (Value.vInt 5) ∧ row[6]? = some (Value.vInt 3))
  ∧ (∃ row, ([asHeader, wasRow] : List (List Value))[1]? = some row
      ∧ row[3]? = some (Value.vInt 5)) :=
  ⟨c7_rating_passthrough.1 [wpsRec] [psHeader, wpsRow] 0 wpsRec 5 3 rfl rfl rfl rfl,
   c7_rating_passthrough.2 [wasRec] [asHeader, wasRow] 0 wasRec 5 rfl rfl rfl⟩

/-! ### Claim C5: datetime columns hold empty strings or DD/MM/YYYY -/

/-- Newline stripping leaves datetime values untouched, hence preserves their
bounds. -/
lemma projectValue_DTBounds {v : Value} (h : DTBounds v) : DTBounds (projectValue v) := by
  cases v with
  | vStr s => exact fun y mo d hh mi ss heq => nomatch heq
  | vInt n => exact h
  | vDT a b c d e f => exact h
  | vNone => exact h
  | vDict l => exact h

/-- An in-range `getD` reads an element of the list. -/
lemma getD_mem_of_lt {l : List Value} {j : Nat} (h : j < l.length) :
    l.getD j Value.vNone ∈ l := by
  rw [List.getD_eq_getElem?_getD, List.getElem?_eq_getElem h]
  exact List.getElem_mem h

/-- After App Store preprocessing, the `repliedAt` field is either the empty
string or a parsed timestamp, which satisfies the datetime bounds. -/
lemma prep_repliedAt_bounds {rev rev' : Rec} (h : prepAppstoreReview rev = some rev') :
    ∀ v, pyGet rev' "repliedAt" = some v → DTBounds v := by
  obtain ⟨t, r, tr, _, _, _, hcase⟩ := prep_cases h
  rcases hcase with ⟨_, rfl⟩ | ⟨dr, body, ms, dtv, _, _, _, hdt, rfl⟩ <;>
    intro v hv <;> rw [pyGet_pySet_same] at hv <;>
    injection hv with hv <;> subst hv
  · exact fun y mo d hh mi ss heq => nomatch heq
  · obtain ⟨y, mo, d, hh, mi, ss, rfl, hy1, hy2, hmo1, hmo2, hd1, hd2, _, _, _⟩ :=
      strptime_bounds hdt
    intro y' mo' d' hh' mi' ss' heq
    injection heq with e1 e2 e3 e4 e5 e6
    subst e1; subst e2; subst e3
    omega

/-- C5: the per-cell datetime conversion maps null/string values to the empty
string and datetime values to `DD/MM/YYYY`; consequently every Datetime and
Reply Datetime cell of the data rows of either platform's table is the empty
string or a two-digit day, slash, two-digit month, slash, four-digit year (the
hypotheses state the bounds Python `datetime` objects carry by construction).
A timestamp for March 5, 2023 formats to `"05/03/2023"` and a null datetime
to `""`. -/
theorem c5_datetime_format :
    (∀ v w, formatDatetimeCell v = some w →
       ((v = Value.vNone ∨ ∃ s, v = Value.vStr s) → w = Value.vStr [])
       ∧ (∀ y mo d hh mi ss, v = Value.vDT y mo d hh mi ss →
            w = Value.vStr (strftime_dmY mo d y)))
  ∧ (∀ (revs : List Rec) (table : List (List Value)),
       format_playstore_reviews revs = some table →
       (∀ rev ∈ revs, ∀ v, (pyGet rev "at" = some v ∨ pyGet rev "repliedAt" = some v) →
          DTBounds v) →
       ∀ row ∈ table.tail,
         (∀ v, row[0]? = some v → IsDateCell v) ∧ (∀ v, row[5]? = some v → IsDateCell v))
  ∧ (∀ (revs : List Rec) (table : List (List Value)),
       formate_appstore_reviews revs = some table →
       (∀ rev ∈ revs, ∀ v, pyGet rev "date" = some v → DTBounds v) →
       ∀ row ∈ table.tail,
         (∀ v, row[0]? = some v → IsDateCell v) ∧ (∀ v, row[5]? = some v → IsDateCell v))
  ∧ formatDatetimeCell (Value.vDT 2023 3 5 10 20 30) = some (Value.vStr (str "05/03/2023"))
  ∧ formatDatetimeCell Value.vNone = some (Value.vStr (str "")) := by
  refine ⟨?_, ?_, ?_, rfl, rfl⟩
  · intro v w h
    constructor
    · rintro (rfl | ⟨s, rfl⟩) <;>
        simp only [formatDatetimeCell, Option.some.injEq] at h <;> exact h.symm
    · rintro y mo d hh mi ss rfl
      simp only [formatDatetimeCell, Option.some.injEq] at h
      exact h.symm
  · intro revs table h hb row hrow
    obtain ⟨d0, d1, d2, d3, d4, d5, d6, e0, e5p, hc0, hc1, hc2, hc3, hc4, hc5, hc6,
      he0, he5, rfl⟩ := ps_char h
    rw [List.tail_cons] at hrow
    unfold transposeCols at hrow
    obtain ⟨j, hj, rfl⟩ := List.mem_map.mp hrow
    have hj0 : j < e0.length := by simpa using List.mem_range.mp hj
    have hj5 : j < e5p.length := by
      have l1 := mapM_option_length _ he0
      have l2 := mapM_option_length _ he5
      have l3 := colProj_length hc0
      have l4 := colProj_length hc5
      omega
    constructor
    · intro v hv
      have hentry : ([e0, d1, d2, d3, d4, e5p, d6].map
          (fun col => col.getD j Value.vNone))[0]? = some (e0.getD j Value.vNone) := rfl
      rw [hentry] at hv
      injection hv with hv
      subst hv
      obtain ⟨u, hu, hfu⟩ := mapM_option_mem _ he0 _ (getD_mem_of_lt hj0)
      obtain ⟨rev, hrev, u0, hu0, rfl⟩ := colProj_mem hc0 u hu
      exact formatDatetimeCell_shape hfu (projectValue_DTBounds (hb rev hrev u0 (Or.inl hu0)))
    · intro v hv
      have hentry : ([e0, d1, d2, d3, d4, e5p, d6].map
          (fun col => col.getD j Value.vNone))[5]? = some (e5p.getD j Value.vNone) := rfl
      rw [hentry] at hv
      injection hv with hv
      subst hv
      obtain ⟨u, hu, hfu⟩ := mapM_option_mem _ he5 _ (getD_mem_of_lt hj5)
      obtain ⟨rev, hrev, u0, hu0, rfl⟩ := colProj_mem hc5 u hu
      exact formatDatetimeCell_shape hfu (projectValue_DTBounds (hb rev hrev u0 (Or.inr hu0)))
  · intro revs table h hb row hrow
    obtain ⟨revs2, hprep, hgen⟩ := formate_as_split h
    obtain ⟨d0, d1, d2, d3, d4, d5, e0, e5p, hc0, hc1, hc2, hc3, hc4, hc5,
      he0, he5, rfl⟩ := as_char hgen
    rw [List.tail_cons] at hrow
    unfold transposeCols at hrow
    obtain ⟨j, hj, rfl⟩ := List.mem_map.mp hrow
    have hj0 : j < e0.length := by simpa using List.mem_range.mp hj
    have hj5 : j < e5p.length := by
      have l1 := mapM_option_length _ he0
      have l2 := mapM_option_length _ he5
      have l3 := colProj_length hc0
      have l4 := colProj_length hc5
      omega
    constructor
    · intro v hv
      have hentry : ([e0, d1, d2, d3, d4, e5p].map
          (fun col => col.getD j Value.vNone))[0]? = some (e0.getD j Value.vNone) := rfl
      rw [hentry] at hv
      injection hv with hv
      subst hv
      obtain ⟨u, hu, hfu⟩ := mapM_option_mem _ he0 _ (getD_mem_of_lt hj0)
      obtain ⟨rev2, hrev2, u0, hu0, rfl⟩ := colProj_mem hc0 u hu
      obtain ⟨rev, hrev, hprev⟩ := mapM_option_mem _ hprep rev2 hrev2
      have hdate : pyGet rev "date" = some u0 := by
        rw [← prep_preserves hprev "date" (by decide) (by decide) (by decide), hu0]
      exact formatDatetimeCell_shape hfu (projectValue_DTBounds (hb rev hrev u0 hdate))
    · intro v hv
      have hentry : ([e0, d1, d2, d3, d4, e5p].map
          (fun col => col.getD j Value.vNone))[5]? = some (e5p.getD j Value.vNone) := rfl
      rw [hentry] at hv
      injection hv with hv
      subst hv
      obtain ⟨u, hu, hfu⟩ := mapM_option_mem _ he5 _ (getD_mem_of_lt hj5)
      obtain ⟨rev2, hrev2, u0, hu0, rfl⟩ := colProj_mem hc5 u hu
      obtain ⟨rev, hrev, hprev⟩ := mapM_option_mem _ hprep rev2 hrev2
      exact formatDatetimeCell_shape hfu
        (projectValue_DTBounds (prep_repliedAt_bounds hprev u0 hu0))

/-- Witness for C5 at a concrete one-record Play Store batch with a null
review datetime: the Datetime cell is the empty string. -/
theorem c5_datetime_format_witness : IsDateCell (Value.vStr []) := by
  have hb : ∀ rev ∈ [wpsRec], ∀ v,
      (pyGet rev "at" = some v ∨ pyGet rev "repliedAt" = some v) → DTBounds v := by
    intro rev hrev v hv
    have hrec : rev = wpsRec := by simpa using hrev
    subst hrec
    rcases hv with hv | hv <;>
      · injection hv with hv
        subst hv
        exact fun y mo d hh mi ss heq => nomatch heq
  exact (c5_datetime_format.2.1 [wpsRec] [psHeader, wpsRow] rfl hb wpsRow (by simp)).1
    (Value.vStr []) rfl

/-! ### Claim C6: App Store preparation step -/

/-- Key-presence is unaffected by writing a different key. -/
lemma pyHasKey_pySet_other (rev : Rec) {k k' : String} (v : Value) (h : k' ≠ k) :
    pyHasKey (pySet rev k v) k' = pyHasKey rev k' := by
  unfold pyHasKey
  rw [pyGet_pySet_other _ _ h]

/-- C6: the App Store preparation sets the review text to the title
concatenated with the original review text (title first, no separator); with
a developer-response sub-record present it copies its body into the reply
field and parses its timestamp into the reply-datetime field, and otherwise
it sets both fields to the empty string.  On the concrete example (title
`"Great"`, review `" app"`, rating 5, no developer response) the pipeline
produces the row with Review `"Great app"`, Reply `""`, Reply Datetime `""`. -/
theorem c6_appstore_preparation :
    (∀ (rev rev' : Rec) (t r : List Char),
      prepAppstoreReview rev = some rev' →
      pyGet rev "title" = some (Value.vStr t) →
      pyGet rev "review" = some (Value.vStr r) →
      pyGet rev' "review" = some (Value.vStr (t ++ r))
      ∧ (pyHasKey rev "developerResponse" = false →
           pyGet rev' "replyContent" = some (Value.vStr [])
           ∧ pyGet rev' "repliedAt" = some (Value.vStr []))
      ∧ (∀ (l : List (String × Value)) (body : Value) (ms : List Char),
           pyGet rev "developerResponse" = some (Value.vDict l) →
           pyGet l "body" = some body →
           pyGet l "modified" = some (Value.vStr ms) →
           pyGet rev' "replyContent" = some body
           ∧ ∃ dtv, strptime_iso ms = some dtv ∧ pyGet rev' "repliedAt" = some dtv))
  ∧ formate_appstore_reviews [wasRec] = some [asHeader, wasRow] := by
  constructor
  · intro rev rev' t r hprep ht hr
    obtain ⟨t0, r0, tr, ht0, hr0, hadd, hcase⟩ := prep_cases hprep
    rw [ht] at ht0
    injection ht0 with ht0
    subst ht0
    rw [hr] at hr0
    injection hr0 with hr0
    subst hr0
    simp only [pyAdd, Option.some.injEq] at hadd
    subst hadd
    refine ⟨?_, ?_, ?_⟩
    · rcases hcase with ⟨_, rfl⟩ | ⟨dr, body, ms, dtv, _, _, _, _, rfl⟩ <;>
        rw [pyGet_pySet_other _ _ (by decide), pyGet_pySet_other _ _ (by decide),
          pyGet_pySet_same]
    · intro hnd
      rcases hcase with ⟨_, rfl⟩ | ⟨dr, body, ms, dtv, hdr, _, _, _, rfl⟩
      · constructor
        · rw [pyGet_pySet_other _ _ (by decide), pyGet_pySet_same]
        · rw [pyGet_pySet_same]
      · exfalso
        rw [pyGet_pySet_other _ _ (by decide)] at hdr
        have : pyHasKey rev "developerResponse" = true := by
          unfold pyHasKey
          rw [hdr]
          rfl
        rw [this] at hnd
        exact nomatch hnd
    · intro l body ms hdrv hbody hmod
      rcases hcase with ⟨hnk, rfl⟩ | ⟨dr, body0, ms0, dtv, hdr, hb0, hm0, hdt, rfl⟩
      · exfalso
        rw [pyHasKey_pySet_other _ _ (by decide)] at hnk
        unfold pyHasKey at hnk
        rw [hdrv] at hnk
        exact nomatch hnk
      · rw [pyGet_pySet_other _ _ (by decide), hdrv] at hdr
        injection hdr with hdr
        subst hdr
        simp only [pyGetItem] at hb0 hm0
        rw [hbody] at hb0
        injection hb0 with hb0
        subst hb0
        rw [hmod] at hm0
        injection hm0 with hm0
        injection hm0 with hm0
        subst hm0
        constructor
        · rw [pyGet_pySet_other _ _ (by decide), pyGet_pySet_same]
        · exact ⟨dtv, hdt, by rw [pyGet_pySet_same]⟩
  · rfl

/-- The record `wasRec` after App Store preprocessing. -/
def wasPrepped : Rec :=
  [("date", Value.vNone), ("userName", Value.vStr (str "alice")),
   ("review", Value.vStr (str "Great app")), ("rating", Value.vInt 5),
   ("isEdited", Value.vNone), ("title", Value.vStr (str "Great")),
   ("replyContent", Value.vStr []), ("repliedAt", Value.vStr [])]

/-- Witness for C6 at the concrete example record. -/
theorem c6_appstore_preparation_witness :
    pyGet wasPrepped "review" = some (Value.vStr (str "Great app"))
  ∧ pyGet wasPrepped "replyContent" = some (Value.vStr [])
  ∧ pyGet wasPrepped "repliedAt" = some (Value.vStr []) := by
  have h := c6_appstore_preparation.1 wasRec wasPrepped (str "Great") (str " app")
    rfl rfl rfl
  exact ⟨h.1, (h.2.1 rfl).1, (h.2.1 rfl).2⟩

end Revscrap
